import Mathlib

/-!
Shallow embedding of the model-one ORM core (src/src/index.ts, with the
instance `save` method of the evolved model file) and proofs about its
value codec, SQL statement builders, record mapper and CRUD facade.

JavaScript runtime values are modelled by the inductive `JSValue`; field
maps (plain JS objects) are association lists with JS property semantics
(`getProp` returns `undefined` for a missing key, `hasOwn` tests key
ownership).  Machine floats are modelled by integers plus an explicit
`NaN`; the platform builtins the source calls (`JSON.stringify`,
`JSON.parse`, number-to-string conversion) are modelled executably below.
-/

namespace ModelOne

/-- A JavaScript runtime value, as far as the model layer observes it. -/
inductive JSValue where
  | vUndefined : JSValue
  | vNull : JSValue
  | vNaN : JSValue
  | vBool : Bool → JSValue
  | vNum : Int → JSValue
  | vStr : String → JSValue
  /-- A `Date` object, identified by its ISO-8601 string (`toISOString`). -/
  | vDate : String → JSValue
  | vArr : List JSValue → JSValue
  | vObj : List (String × JSValue) → JSValue

open JSValue

/-- JS truthiness (`Boolean(v)`): `undefined`, `null`, `NaN`, `false`, `0`
and the empty string are falsy, everything else truthy. -/
def truthy : JSValue → Bool
  | vUndefined => false
  | vNull => false
  | vNaN => false
  | vBool b => b
  | vNum n => decide (n ≠ 0)
  | vStr s => decide (s ≠ "")
  | vDate _ => true
  | vArr _ => true
  | vObj _ => true

/-- `typeof v === 'number'` (NaN is a number in JS). -/
def isNumber : JSValue → Bool
  | vNum _ => true
  | vNaN => true
  | _ => false

/-- `typeof v === 'string'`. -/
def isString : JSValue → Bool
  | vStr _ => true
  | _ => false

/-- `v === null || v === undefined`. -/
def isNullish : JSValue → Bool
  | vNull => true
  | vUndefined => true
  | _ => false

/-- `v === undefined` (so `!isDefined v` is the `data[k] !== undefined`
test's negation). -/
def isDefined : JSValue → Bool
  | vUndefined => false
  | _ => true

/-! ### JS objects as association lists -/

/-- A plain JS object: insertion-ordered bindings from property names to
values.  Canonical objects have no duplicate keys. -/
abbrev Obj := List (String × JSValue)

/-- Property read `o[k]`: `undefined` when the key is absent. -/
def getProp (o : Obj) (k : String) : JSValue :=
  (o.lookup k).getD vUndefined

/-- `Object.prototype.hasOwnProperty.call(o, k)`. -/
def hasOwn (o : Obj) (k : String) : Bool :=
  (o.lookup k).isSome

/-- Property write `o[k] = v`: replaces the binding in place when the key
exists, appends it otherwise (JS insertion order). -/
def setProp : Obj → String → JSValue → Obj
  | [], k, v => [(k, v)]
  | (k0, v0) :: rest, k, v =>
    if k0 = k then (k0, v) :: rest else (k0, v0) :: setProp rest k v

/-- `delete o[k]`. -/
def delProp (o : Obj) (k : String) : Obj :=
  o.filter (fun p => p.1 ≠ k)

/-- Object spread `{...o, ...p}`: every binding of `p` written over `o`. -/
def spreadMerge (o p : Obj) : Obj :=
  p.foldl (fun acc kv => setProp acc kv.1 kv.2) o

/-! ### Schema data model (src/src/index.ts lines 17-130) -/

/-- `SQLiteType` from the source. -/
inductive SQLiteType where
  | TEXT | INTEGER | REAL | NUMERIC | BLOB | BOOLEAN | TIMESTAMP | DATE
  deriving DecidableEq

/-- `ColumnType`: the logical (JavaScript-side) type of a column. -/
inductive ColumnType where
  | string | number | boolean | jsonb | date
  deriving DecidableEq

/-- `ConstraintType` from the source. -/
inductive ConstraintType where
  | primaryKey | notNull | unique | check | default | foreignKey
  deriving DecidableEq

/-- `Constraint`: a constraint kind with an optional scalar value. -/
structure Constraint where
  type : ConstraintType
  value : Option JSValue := none

/-- `Column`: a column definition. -/
structure Column where
  name : String
  type : ColumnType
  sqliteType : Option SQLiteType := none
  required : Option Bool := none
  constraints : Option (List Constraint) := none

/-- `SchemaConfigI`: the resolved schema a `Schema` instance carries. -/
structure SchemaConfigI where
  table_name : String
  columns : List Column
  uniques : Option (List String) := none
  timestamps : Bool
  softDeletes : Bool

/-- The `Schema` constructor (src/src/index.ts lines 117-129): optional
`timestamps` defaults to `true`, optional `softDeletes` to `false`,
supplied booleans are stored unchanged. -/
def Schema.make (table_name : String) (columns : List Column)
    (uniques : Option (List String)) (timestamps : Option Bool)
    (softDeletes : Option Bool) : SchemaConfigI :=
  { table_name := table_name
    columns := columns
    uniques := uniques
    timestamps := timestamps.getD true
    softDeletes := softDeletes.getD false }

/-- `getDefaultSQLiteType` (src/src/index.ts lines 167-182). -/
def getDefaultSQLiteType : ColumnType → SQLiteType
  | ColumnType.string => SQLiteType.TEXT
  | ColumnType.number => SQLiteType.REAL
  | ColumnType.boolean => SQLiteType.INTEGER
  | ColumnType.jsonb => SQLiteType.TEXT
  | ColumnType.date => SQLiteType.TEXT

/-! ### Platform builtins: number-to-string, `JSON.stringify`, `JSON.parse`

The source calls these JavaScript builtins; they are modelled executably.
JS numbers are modelled as integers (plus `NaN`), so number rendering is
plain decimal. -/

/-- The decimal digit character for `n % 10`. -/
def digitCharOf (n : Nat) : Char := Char.ofNat (48 + n % 10)

/-- Decimal digits of a natural number, most significant first
(fuel-driven; `natDigits` supplies enough fuel). -/
def natDigitsAux : Nat → Nat → List Char → List Char
  | 0, _, acc => acc
  | fuel + 1, n, acc =>
    if n < 10 then digitCharOf n :: acc
    else natDigitsAux fuel (n / 10) (digitCharOf n :: acc)

/-- Decimal representation of a natural number, as JS renders one. -/
def natDigits (n : Nat) : List Char := natDigitsAux (n + 1) n []

/-- Decimal representation of an integer, as JS renders one. -/
def intDigits (n : Int) : List Char :=
  if n < 0 then '-' :: natDigits n.natAbs else natDigits n.natAbs

/-- `String(n)` / template-literal rendering for the numbers of the model. -/
def numToString : JSValue → String
  | vNum n => ⟨intDigits n⟩
  | vNaN => "NaN"
  | _ => ""

/-- Left brace character (written by code point to keep SQL/JSON text
literal-free). -/
def lbrace : Char := Char.ofNat 123

/-- Right brace character. -/
def rbrace : Char := Char.ofNat 125

/-- Hex digit character for `n < 16` (lower case, as `JSON.stringify`
emits in `\u00XX` escapes). -/
def hexDigitChar (n : Nat) : Char :=
  if n < 10 then Char.ofNat (48 + n) else Char.ofNat (87 + n)

/-- How `JSON.stringify` escapes one character inside a string literal. -/
def escapeChar (c : Char) : List Char :=
  if c = '"' then ['\\', '"']
  else if c = '\\' then ['\\', '\\']
  else if c = Char.ofNat 8 then ['\\', 'b']
  else if c = Char.ofNat 9 then ['\\', 't']
  else if c = Char.ofNat 10 then ['\\', 'n']
  else if c = Char.ofNat 12 then ['\\', 'f']
  else if c = Char.ofNat 13 then ['\\', 'r']
  else if c.toNat < 32 then
    ['\\', 'u', '0', '0', hexDigitChar (c.toNat / 16), hexDigitChar (c.toNat % 16)]
  else [c]

/-- The escaped body of a JSON string literal. -/
def escBody : List Char → List Char
  | [] => []
  | c :: cs => escapeChar c ++ escBody cs

/-- A JSON string literal for `s`: quote, escaped body, quote. -/
def renderString (s : List Char) : List Char :=
  '"' :: escBody s ++ ['"']

/-- Comma-join a list of character-list pieces (no separator text around
the comma, as `JSON.stringify` with no indent emits). -/
def joinComma : List (List Char) → List Char
  | [] => []
  | [x] => x
  | x :: y :: ys => x ++ ',' :: joinComma (y :: ys)

mutual
/-- `JSON.stringify v`, as a character list; `none` models the builtin
returning `undefined` (for `undefined` input). -/
def render : JSValue → Option (List Char)
  | vUndefined => none
  | vNull => some ('n' :: 'u' :: 'l' :: 'l' :: [])
  | vNaN => some ('n' :: 'u' :: 'l' :: 'l' :: [])
  | vBool true => some ('t' :: 'r' :: 'u' :: 'e' :: [])
  | vBool false => some ('f' :: 'a' :: 'l' :: 's' :: 'e' :: [])
  | vNum n => some (intDigits n)
  | vStr s => some (renderString s.data)
  | vDate iso => some (renderString iso.data)
  | vArr xs => some ('[' :: joinComma (itemPieces xs) ++ [']'])
  | vObj fs => some (lbrace :: joinComma (memberPieces fs) ++ [rbrace])

/-- The rendered pieces of an array's items (an item whose `stringify` is
`undefined` renders as `null`, as in JS). -/
def itemPieces : List JSValue → List (List Char)
  | [] => []
  | x :: xs => (render x).getD ('n' :: 'u' :: 'l' :: 'l' :: []) :: itemPieces xs

/-- The rendered `"key":value` pieces of an object (a member whose value
`stringify`s to `undefined` is dropped, as in JS). -/
def memberPieces : List (String × JSValue) → List (List Char)
  | [] => []
  | (k, v) :: fs =>
    match render v with
    | none => memberPieces fs
    | some t => (renderString k.data ++ ':' :: t) :: memberPieces fs
end

/-- `JSON.stringify` as the source observes it: a string, or `none` for
the builtin's `undefined` result. -/
def jsonStringify (v : JSValue) : Option String :=
  (render v).map fun cs => ⟨cs⟩

/-! `JSON.parse`, modelled as a recursive-descent parser over the
character list.  It accepts everything `JSON.stringify` above emits;
parse failure models the builtin throwing a `SyntaxError`. -/

/-- The value of one hex digit character. -/
def hexVal (c : Char) : Option Nat :=
  if 48 ≤ c.toNat ∧ c.toNat ≤ 57 then some (c.toNat - 48)
  else if 97 ≤ c.toNat ∧ c.toNat ≤ 102 then some (c.toNat - 87)
  else if 65 ≤ c.toNat ∧ c.toNat ≤ 70 then some (c.toNat - 55)
  else none

/-- The character a one-letter escape (`\"`, `\\`, `\/`, `\b`, `\t`,
`\n`, `\f`, `\r`) denotes. -/
def escCharOf (e : Char) : Option Char :=
  if e = '"' then some '"'
  else if e = '\\' then some '\\'
  else if e = '/' then some '/'
  else if e = 'b' then some (Char.ofNat 8)
  else if e = 't' then some (Char.ofNat 9)
  else if e = 'n' then some (Char.ofNat 10)
  else if e = 'f' then some (Char.ofNat 12)
  else if e = 'r' then some (Char.ofNat 13)
  else none

/-- The four hex digits of a `\uXXXX` escape, as one code point. -/
def hexQuad (a b c d : Char) : Option Nat :=
  match hexVal a, hexVal b, hexVal c, hexVal d with
  | some ha, some hb, some hc, some hd =>
    some (((ha * 16 + hb) * 16 + hc) * 16 + hd)
  | _, _, _, _ => none

/-- Parse the body of a JSON string literal after its opening quote:
returns the decoded characters and the input after the closing quote. -/
def parseStrBody (cs : List Char) : Option (List Char × List Char) :=
  match cs with
  | [] => none
  | c :: rest =>
    if c = '"' then some ([], rest)
    else if c = '\\' then
      match rest with
      | [] => none
      | e :: rest2 =>
        if e = 'u' then
          match rest2 with
          | a :: b :: c2 :: d :: rest3 =>
            match hexQuad a b c2 d with
            | some k => (parseStrBody rest3).map fun p => (Char.ofNat k :: p.1, p.2)
            | none => none
          | _ => none
        else
          match escCharOf e with
          | some ec => (parseStrBody rest2).map fun p => (ec :: p.1, p.2)
          | none => none
    else (parseStrBody rest).map fun p => (c :: p.1, p.2)
termination_by structural cs

/-- Maximal prefix of decimal digits. -/
def takeDigits : List Char → List Char × List Char
  | [] => ([], [])
  | c :: cs =>
    if 48 ≤ c.toNat ∧ c.toNat ≤ 57 then
      let p := takeDigits cs
      (c :: p.1, p.2)
    else ([], c :: cs)

/-- The natural number a digit list denotes. -/
def digitsToNat (ds : List Char) : Nat :=
  ds.foldl (fun a c => a * 10 + (c.toNat - 48)) 0

/-- Parse a JSON number (integral form, covering everything the integer
number model renders). -/
def parseNum : List Char → Option (JSValue × List Char)
  | [] => none
  | c :: cs =>
    if c = '-' then
      match takeDigits cs with
      | ([], _) => none
      | (ds, r) => some (vNum (-(digitsToNat ds : Int)), r)
    else
      match takeDigits (c :: cs) with
      | ([], _) => none
      | (ds, r) => some (vNum (digitsToNat ds : Int), r)

mutual
/-- Parse one JSON value (`fuel` bounds the nesting; `jsonParse` supplies
enough for any input). -/
def parseV : Nat → List Char → Option (JSValue × List Char)
  | 0, _ => none
  | fuel + 1, cs =>
    match cs with
    | [] => none
    | c :: rest =>
      if c = 'n' then
        match rest with
        | 'u' :: 'l' :: 'l' :: r => some (vNull, r)
        | _ => none
      else if c = 't' then
        match rest with
        | 'r' :: 'u' :: 'e' :: r => some (vBool true, r)
        | _ => none
      else if c = 'f' then
        match rest with
        | 'a' :: 'l' :: 's' :: 'e' :: r => some (vBool false, r)
        | _ => none
      else if c = '"' then
        (parseStrBody rest).map fun p => (vStr ⟨p.1⟩, p.2)
      else if c = '[' then
        match rest with
        | ']' :: r => some (vArr [], r)
        | _ => (parseItems fuel rest).map fun p => (vArr p.1, p.2)
      else if c = lbrace then
        match rest with
        | r0 :: r =>
          if r0 = rbrace then some (vObj [], r)
          else (parseMembers fuel rest).map fun p => (vObj p.1, p.2)
        | [] => none
      else parseNum cs

/-- Parse the items of a non-empty JSON array, consuming the closing
bracket. -/
def parseItems : Nat → List Char → Option (List JSValue × List Char)
  | 0, _ => none
  | fuel + 1, cs =>
    match parseV fuel cs with
    | none => none
    | some (v, rest) =>
      match rest with
      | ']' :: r => some ([v], r)
      | ',' :: r =>
        match parseItems fuel r with
        | some (vs, r2) => some (v :: vs, r2)
        | none => none
      | _ => none

/-- Parse the members of a non-empty JSON object, consuming the closing
brace. -/
def parseMembers : Nat → List Char → Option (List (String × JSValue) × List Char)
  | 0, _ => none
  | fuel + 1, cs =>
    match cs with
    | '"' :: rest =>
      match parseStrBody rest with
      | some (k, ':' :: r) =>
        match parseV fuel r with
        | some (v, rest2) =>
          match rest2 with
          | r0 :: r2 =>
            if r0 = rbrace then some ([(⟨k⟩, v)], r2)
            else if r0 = ',' then
              match parseMembers fuel r2 with
              | some (fs, r3) => some ((⟨k⟩, v) :: fs, r3)
              | none => none
            else none
          | [] => none
        | none => none
      | _ => none
    | _ => none
end

/-- `JSON.parse s`: `none` models the builtin throwing a `SyntaxError`. -/
def jsonParse (s : String) : Option JSValue :=
  match parseV (s.data.length + 1) s.data with
  | some (v, []) => some v
  | _ => none

mutual
/-- JS string coercion (template literal / `String(v)`).  A `Date` is
identified by its ISO string, so its coercion is modelled by that string. -/
def jsToString : JSValue → String
  | vUndefined => "undefined"
  | vNull => "null"
  | vNaN => "NaN"
  | vBool true => "true"
  | vBool false => "false"
  | vNum n => ⟨intDigits n⟩
  | vStr s => s
  | vDate iso => iso
  | vArr xs => joinToStr xs
  | vObj _ => "[object Object]"

/-- `Array.prototype.join` with the default comma separator (`null` and
`undefined` items render empty). -/
def joinToStr : List JSValue → String
  | [] => ""
  | [x] => (match x with | vNull => "" | vUndefined => "" | _ => jsToString x)
  | x :: y :: ys =>
    (match x with | vNull => "" | vUndefined => "" | _ => jsToString x) ++ "," ++
      joinToStr (y :: ys)
end

/-- `Number(s)` for a string: empty string is `0`, an optionally signed
digit string is that integer, anything else `NaN` (the model has no
fractional numbers). -/
def strToNumber (s : String) : JSValue :=
  match s.data with
  | [] => vNum 0
  | '-' :: rest =>
    match takeDigits rest with
    | ([], _) => vNaN
    | (ds, []) => vNum (-(digitsToNat ds : Int))
    | (_, _ :: _) => vNaN
  | cs =>
    match takeDigits cs with
    | ([], _) => vNaN
    | (ds, []) => vNum (digitsToNat ds : Int)
    | (_, _ :: _) => vNaN

/-- `Number(v)` coercion.  Array/object/date coercion corner cases are
collapsed to `NaN` (best-effort, per spec §4.1's documented soft spot);
the decode path only ever applies this to storage scalars. -/
def jsNumber : JSValue → JSValue
  | vNum n => vNum n
  | vNaN => vNaN
  | vBool b => vNum (if b then 1 else 0)
  | vNull => vNum 0
  | vUndefined => vNaN
  | vStr s => strToNumber s
  | vDate _ => vNaN
  | vArr _ => vNaN
  | vObj _ => vNaN

/-! ### The value codec (src/src/index.ts lines 187-230) -/

/-- A thrown JS exception, as far as the model layer distinguishes them. -/
inductive Thrown where
  /-- A `ModelError` with its message and field-error list. -/
  | modelErr (message : String) (errors : List String)
  /-- The `SyntaxError` `JSON.parse` throws on bad input. -/
  | jsonSyntaxErr

/-- The early-return branch of `processValueForStorage` for a
`null`/`undefined` value (lines 188-193). -/
def storageNullFor : ColumnType → JSValue
  | ColumnType.jsonb => vStr "null"
  | _ => vNull

/-- The type switch of `processValueForStorage` for a non-nullish value
(lines 195-204). -/
def storageCoerce (value : JSValue) : ColumnType → JSValue
  | ColumnType.boolean => if truthy value then vNum 1 else vNum 0
  | ColumnType.jsonb =>
    match jsonStringify value with
    | some s => vStr s
    | none => vUndefined
  | ColumnType.date =>
    match value with
    | vDate iso => vStr iso
    | _ => value
  | _ => value

/-- `Model.processValueForStorage` (lines 187-205). -/
def processValueForStorage (value : JSValue) (columnType : ColumnType) : JSValue :=
  if isNullish value then storageNullFor columnType else storageCoerce value columnType

/-- The `jsonb` decode arm (lines 220-224): short-circuit the empty
string and the literal `"null"`, parse other strings, pass non-strings
through. -/
def decodeJsonb : JSValue → Except Thrown JSValue
  | vStr s =>
    if s = "" ∨ s = "null" then .ok vNull
    else
      match jsonParse s with
      | some v => .ok v
      | none => .error Thrown.jsonSyntaxErr
  | v => .ok v

/-- The type switch of `processValueFromStorage` for a non-nullish stored
value (lines 215-229). -/
def decodeCoerce (value : JSValue) : ColumnType → Except Thrown JSValue
  | ColumnType.boolean => .ok (vBool (truthy value))
  | ColumnType.number => .ok (jsNumber value)
  | ColumnType.jsonb => decodeJsonb value
  | ColumnType.date => .ok value
  | _ => .ok value

/-- `Model.processValueFromStorage` (lines 210-230); the error case is the
`SyntaxError` thrown by `JSON.parse` on unparseable stored text. -/
def processValueFromStorage (value : JSValue) (columnType : ColumnType) :
    Except Thrown JSValue :=
  if isNullish value then .ok vNull else decodeCoerce value columnType

/-! ### Statement building: `deserializeData` (lines 232-283) -/

/-- The literal pushed onto `values` for one processed value in the
insert branch (lines 244-252): `NULL` for null, `toString()` for numbers,
the string itself for strings, `JSON.stringify` otherwise. -/
def insertLiteral : JSValue → String
  | vNull => "NULL"
  | vNum n => ⟨intDigits n⟩
  | vNaN => "NaN"
  | vStr s => s
  | p => (jsonStringify p).getD "undefined"

/-- The schema columns the insert branch iterates over: those whose value
in the field map is not `undefined` (line 240). -/
def insertColumns (data : Obj) (schema : SchemaConfigI) : List Column :=
  schema.columns.filter fun c => isDefined (getProp data c.name)

/-- The ordered `keys` list of the insert branch: `id` first, then the
defined columns. -/
def insertKeys (data : Obj) (schema : SchemaConfigI) : List String :=
  "id" :: (insertColumns data schema).map Column.name

/-- The ordered `values` list of the insert branch: the fresh UUID first,
then each defined column's storage literal. -/
def insertValues (uuid : String) (data : Obj) (schema : SchemaConfigI) : List String :=
  uuid :: (insertColumns data schema).map fun c =>
    insertLiteral (processValueForStorage (getProp data c.name) c.type)

/-- Line 256-258: wrap every value except the `NULL` token in single
quotes. -/
def formatValue (v : String) : String :=
  if v = "NULL" then v else "'" ++ v ++ "'"

/-- The joined, quoted `values` string of the insert branch. -/
def insertValuesJoined (uuid : String) (data : Obj) (schema : SchemaConfigI) : String :=
  String.intercalate ", " ((insertValues uuid data schema).map formatValue)

/-- The joined `keys` string of the insert branch. -/
def insertKeysJoined (data : Obj) (schema : SchemaConfigI) : String :=
  String.intercalate ", " (insertKeys data schema)

/-- The right-hand side of one `column = …` assignment in the update
branch (lines 271-277): `NULL` for null, the bare number for numbers, the
single-quoted string coercion otherwise. -/
def updateRhs : JSValue → String
  | vNull => "NULL"
  | vNum n => ⟨intDigits n⟩
  | vNaN => "NaN"
  | p => "'" ++ jsToString p ++ "'"

/-- The update branch's assignment list as (column, right-hand side)
pairs: every schema column other than `id` that is an own key of the
field map (lines 265-279). -/
def updateEntries (data : Obj) (schema : SchemaConfigI) : List (String × String) :=
  schema.columns.filterMap fun c =>
    if c.name = "id" then none
    else if hasOwn data c.name then
      some (c.name, updateRhs (processValueForStorage (getProp data c.name) c.type))
    else none

/-- The update branch's `attributes` strings. -/
def updateAttributes (data : Obj) (schema : SchemaConfigI) : List String :=
  (updateEntries data schema).map fun e => e.1 ++ " = " ++ e.2

/-- The joined `attributes` string. -/
def updateAttributesJoined (data : Obj) (schema : SchemaConfigI) : String :=
  String.intercalate ", " (updateAttributes data schema)

/-- The two result shapes of `deserializeData`. -/
inductive DeserializedData where
  | insertData (values : String) (keys : String)
  | updateData (attributes : String)

/-- `Model.deserializeData` (lines 232-283); `uuid` injects the
`crypto.randomUUID()` result. -/
def deserializeData (uuid : String) (data : Obj) (schema : SchemaConfigI) :
    DeserializedData :=
  if !truthy (getProp data "id") then
    DeserializedData.insertData (insertValuesJoined uuid data schema)
      (insertKeysJoined data schema)
  else
    DeserializedData.updateData (updateAttributesJoined data schema)

/-! ### Query builders for the facade operations (lines 320-537) -/

/-- JS strict equality `===` on the values the model layer compares
(primitives compare structurally, `NaN` to nothing; distinct objects are
never strictly equal, so object comparisons are modelled `false`). -/
def strictEq : JSValue → JSValue → Bool
  | vNull, vNull => true
  | vUndefined, vUndefined => true
  | vBool a, vBool b => a == b
  | vNum a, vNum b => a == b
  | vStr a, vStr b => a == b
  | _, _ => false

/-- Truthiness of the optional `Boolean` parameters (`complete`,
`includeDeleted`): an omitted parameter is `undefined`, hence falsy. -/
def optTruthy (o : Option Bool) : Bool := o.getD false

/-- The INSERT statement `Model.create` builds (lines 320-332).  When the
field map carries a truthy `id`, `deserializeData` returns the update
shape and JS destructuring yields `undefined` for `keys`/`values`;
template interpolation renders that as the text `undefined`. -/
def createQuery (uuid : String) (data : Obj) (schema : SchemaConfigI) : String :=
  let r := deserializeData uuid data schema
  let keys := match r with
    | DeserializedData.insertData _ k => k
    | DeserializedData.updateData _ => "undefined"
  let values := match r with
    | DeserializedData.insertData v _ => v
    | DeserializedData.updateData _ => "undefined"
  "INSERT INTO " ++ schema.table_name ++ " (" ++ keys ++
    (if schema.timestamps then ", created_at, updated_at" else "") ++
    ") VALUES(" ++ values ++
    (if schema.timestamps then ", datetime('now'), datetime('now')" else "") ++
    ") RETURNING *;"

/-- How `Model.update` (lines 346-369) proceeds before touching the
database: fail on a missing id, fall back to `findById` on an empty
assignment list, otherwise run the built UPDATE statement. -/
inductive UpdateAction where
  | missingId
  | emptyAttributes (id : JSValue)
  | runQuery (q : String)

/-- The pure phase of `Model.update`. -/
def updateAction (data : Obj) (schema : SchemaConfigI) : UpdateAction :=
  let id := getProp data "id"
  if !truthy id then UpdateAction.missingId
  else
    let attributes := updateAttributesJoined data schema
    if attributes = "" then UpdateAction.emptyAttributes id
    else
      UpdateAction.runQuery ("UPDATE " ++ schema.table_name ++ " SET " ++ attributes ++
        (if schema.timestamps then ", updated_at = datetime('now')" else "") ++
        " WHERE id='" ++ jsToString id ++ "' RETURNING *;")

/-- The soft-delete UPDATE of `Model.delete` (lines 389-391), template
whitespace included. -/
def softDeleteQuery (schema : SchemaConfigI) (id : String) : String :=
  "UPDATE " ++ schema.table_name ++
    " \n                    SET deleted_at = datetime('now')\n                    WHERE id='" ++
    id ++ "';"

/-- The hard DELETE of `Model.delete` (line 399). -/
def hardDeleteQuery (schema : SchemaConfigI) (id : String) : String :=
  "DELETE FROM " ++ schema.table_name ++ " WHERE id='" ++ id ++ "';"

/-- The SELECT of `Model.all` (lines 435-444). -/
def allQuery (schema : SchemaConfigI) (includeDeleted : Option Bool) : String :=
  "SELECT * FROM " ++ schema.table_name ++
    (if schema.softDeletes && !optTruthy includeDeleted then
      " WHERE deleted_at IS NULL" else "") ++ ";"

/-- The SELECT of `Model.findOne` (lines 461-470). -/
def findOneQuery (schema : SchemaConfigI) (column value : String)
    (includeDeleted : Option Bool) : String :=
  "SELECT * FROM " ++ schema.table_name ++ " WHERE " ++ column ++ "='" ++ value ++ "'" ++
    (if schema.softDeletes && !optTruthy includeDeleted then
      " AND deleted_at IS NULL" else "") ++ " LIMIT 1;"

/-- The SELECT of `Model.findBy` (lines 487-496). -/
def findByQuery (schema : SchemaConfigI) (column value : String)
    (includeDeleted : Option Bool) : String :=
  "SELECT * FROM " ++ schema.table_name ++ " WHERE " ++ column ++ "='" ++ value ++ "'" ++
    (if schema.softDeletes && !optTruthy includeDeleted then
      " AND deleted_at IS NULL" else "") ++ ";"

/-- The SELECT of `Model.findById` (lines 513-522). -/
def findByIdQuery (schema : SchemaConfigI) (id : String)
    (includeDeleted : Option Bool) : String :=
  "SELECT * FROM " ++ schema.table_name ++ " WHERE id='" ++ id ++ "'" ++
    (if schema.softDeletes && !optTruthy includeDeleted then
      " AND deleted_at IS NULL" else "") ++ " LIMIT 1;"

/-! ### Record mapping (lines 285-318) -/

/-- One step of `serializeData`'s column loop (lines 288-294); a decode
exception aborts the loop. -/
def serializeStep (data : Obj) (acc : Except Thrown Obj) (c : Column) :
    Except Thrown Obj :=
  match acc with
  | Except.error e => Except.error e
  | Except.ok r =>
    if isDefined (getProp data c.name) then
      match processValueFromStorage (getProp data c.name) c.type with
      | Except.ok v => Except.ok (setProp r c.name v)
      | Except.error e => Except.error e
    else Except.ok (setProp r c.name vNull)

/-- The final sweep of `serializeData` (lines 296-300): any remaining
`undefined` value becomes `null`. -/
def sweepUndefined (o : Obj) : Obj :=
  o.map fun p => (p.1, if isDefined p.2 then p.2 else vNull)

/-- `Model.serializeData` (lines 285-303): start from a copy of the raw
row, decode every schema column (a column absent from the row becomes
`null`), then map `undefined` values to `null`. -/
def serializeData (data : Obj) (schema : SchemaConfigI) : Except Thrown Obj :=
  match schema.columns.foldl (serializeStep data) (Except.ok data) with
  | Except.ok r => Except.ok (sweepUndefined r)
  | Except.error e => Except.error e

/-- A model instance: `id`, the schema it was constructed with, and its
`data` field map. -/
structure ModelInst where
  id : JSValue
  schema : SchemaConfigI
  data : Obj

/-- `Model.createModelInstance` (lines 305-318). -/
def createModelInstance (data : Obj) (schemaForInstance : SchemaConfigI) : ModelInst :=
  let d := data
  let d := if truthy (getProp data "id") then setProp d "id" (getProp data "id") else d
  { id := getProp data "id", schema := schemaForInstance, data := d }

/-! ### The facade operations, with the execution capability injected -/

/-- The external execution capability: a statement string to `none`
(`success: false`) or the returned rows. -/
abbrev QueryEngine := String → Option (List Obj)

/-- `Model.create` (lines 320-344); `uuid` injects `crypto.randomUUID()`
and the class schema stands for `new this()`'s schema. -/
def staticCreate (uuid : String) (schema : SchemaConfigI) (data : Obj)
    (env : QueryEngine) : Except Thrown (Option ModelInst) :=
  match env (createQuery uuid data schema) with
  | some (row :: _) => do
    let s ← serializeData row schema
    pure (some (createModelInstance s schema))
  | _ => pure none

/-- What a find operation returns: nothing, the raw row (`complete`), or
a decoded model instance. -/
inductive FindRet where
  | noneV
  | raw (o : Obj)
  | inst (m : ModelInst)

/-- `Model.findById` (lines 513-537). -/
def findByIdModel (schema : SchemaConfigI) (id : String) (env : QueryEngine)
    (complete includeDeleted : Option Bool) : Except Thrown FindRet :=
  match env (findByIdQuery schema id includeDeleted) with
  | some (row :: _) =>
    if optTruthy complete then pure (FindRet.raw row)
    else do
      let s ← serializeData row schema
      pure (FindRet.inst (createModelInstance s schema))
  | _ => pure FindRet.noneV

/-- `Model.update` (lines 346-381): `null` on a missing id, a
`findById(id, env, false)` fallback on an empty assignment list,
otherwise the UPDATE statement's first returned row decoded into an
instance. -/
def staticUpdate (schema : SchemaConfigI) (data : Obj) (env : QueryEngine) :
    Except Thrown (Option ModelInst) :=
  match updateAction data schema with
  | UpdateAction.missingId => pure none
  | UpdateAction.emptyAttributes id => do
    let r ← findByIdModel schema (jsToString id) env (some false) none
    match r with
    | FindRet.inst m => pure (some m)
    | _ => pure none
  | UpdateAction.runQuery q =>
    match env q with
    | some (row :: _) => do
      let s ← serializeData row schema
      pure (some (createModelInstance s schema))
    | _ => pure none

/-- `Model.delete` (lines 383-406): the message object the operation
returns (a missing id never reaches the engine). -/
def staticDelete (schema : SchemaConfigI) (id : String) (env : QueryEngine) : Obj :=
  if id = "" then [("message", vStr "ID is missing.")]
  else if schema.softDeletes then
    match env (softDeleteQuery schema id) with
    | some _ =>
      [("message", vStr ("The ID " ++ id ++ " from table \"" ++ schema.table_name ++
        "\" has been soft deleted."))]
    | none =>
      [("message", vStr ("The ID " ++ id ++ " has not been found at table \"" ++
        schema.table_name ++ "\""))]
  else
    match env (hardDeleteQuery schema id) with
    | some _ =>
      [("message", vStr ("The ID " ++ id ++ " from table \"" ++ schema.table_name ++
        "\" has been successfully deleted."))]
    | none =>
      [("message", vStr ("The ID " ++ id ++ " has not been found at table \"" ++
        schema.table_name ++ "\""))]

/-- The instance-level `update` (lines 143-162): throws a `ModelError`
when the instance data has no truthy id, otherwise merges the partial
data over the instance data, calls the static update, and on success
syncs the instance's `data` and `id` and returns the instance. -/
def instanceUpdate (classSchema : SchemaConfigI) (inst : ModelInst)
    (partialData : Obj) (env : QueryEngine) : Except Thrown (Option ModelInst) :=
  if !truthy (getProp inst.data "id") then
    Except.error (Thrown.modelErr "Instance data is missing an ID, cannot update." [])
  else do
    let updatePayload := spreadMerge inst.data partialData
    let result ← staticUpdate classSchema updatePayload env
    match result with
    | some r =>
      pure (some { inst with
        data := r.data
        id := if truthy (getProp r.data "id") then getProp r.data "id" else inst.id })
    | none => pure none

/-- The create payload adjustment of `save` (lines 640-643): a key `id`
that is owned but bound to `null`/`undefined` is deleted before the
static create is called. -/
def createPayload (d : Obj) : Obj :=
  if hasOwn d "id" && isNullish (getProp d "id") then delProp d "id" else d

/-- The instance-level `save` (evolved model file, lines 612-662): sync
`data.id` from `this.id`, route to the static update when `data.id` is
truthy and to the static create otherwise (dropping a nullish `id` key
from the create payload), then sync the instance's state with the result
and return the instance itself. -/
def save (uuid : String) (classSchema : SchemaConfigI) (inst : ModelInst)
    (env : QueryEngine) : Except Thrown (Option ModelInst) :=
  let d :=
    if truthy inst.id &&
        (!truthy (getProp inst.data "id") || !strictEq (getProp inst.data "id") inst.id)
    then setProp inst.data "id" inst.id
    else inst.data
  let inst := { inst with data := d }
  if truthy (getProp inst.data "id") then do
    let r ← staticUpdate classSchema inst.data env
    match r with
    | some ri =>
      pure (some { inst with
        data := ri.data
        id := if truthy (getProp ri.data "id") then getProp ri.data "id" else vNull })
    | none => pure none
  else do
    let r ← staticCreate uuid classSchema (createPayload inst.data) env
    match r with
    | some ri =>
      pure (some { inst with
        data := ri.data
        id := if truthy (getProp ri.data "id") then getProp ri.data "id" else vNull })
    | none => pure none

/-! ### Well-typed logical values, and a size measure for the parser -/

mutual
/-- A value of the JSON data model: what the `jsonb` logical type ranges
over (`undefined`, `NaN` and `Date` objects are not JSON data). -/
def wellTypedJson : JSValue → Bool
  | vNull => true
  | vBool _ => true
  | vNum _ => true
  | vStr _ => true
  | vArr xs => wellTypedJsonList xs
  | vObj fs => wellTypedJsonMembers fs
  | _ => false

/-- Every item is JSON data. -/
def wellTypedJsonList : List JSValue → Bool
  | [] => true
  | x :: xs => wellTypedJson x && wellTypedJsonList xs

/-- Every member value is JSON data. -/
def wellTypedJsonMembers : List (String × JSValue) → Bool
  | [] => true
  | (_, v) :: fs => wellTypedJson v && wellTypedJsonMembers fs
end

/-- The logical values of each column type (`null` is a legal value of
every type). -/
def wellTypedFor (v : JSValue) : ColumnType → Bool
  | ColumnType.boolean => match v with
    | vNull => true
    | vBool _ => true
    | _ => false
  | ColumnType.number => match v with
    | vNull => true
    | vNum _ => true
    | _ => false
  | ColumnType.string => match v with
    | vNull => true
    | vStr _ => true
    | _ => false
  | ColumnType.jsonb => wellTypedJson v
  | ColumnType.date => match v with
    | vNull => true
    | vDate _ => true
    | _ => false

mutual
/-- Fuel measure for `parseV`: enough fuel for any value it is asked to
re-read. -/
def jsize : JSValue → Nat
  | vArr xs => 1 + jsizeItems xs
  | vObj fs => 1 + jsizeMembers fs
  | _ => 1

/-- Fuel measure for `parseItems`. -/
def jsizeItems : List JSValue → Nat
  | [] => 0
  | x :: xs => 1 + jsize x + jsizeItems xs

/-- Fuel measure for `parseMembers`. -/
def jsizeMembers : List (String × JSValue) → Nat
  | [] => 0
  | (_, v) :: fs => 1 + jsize v + jsizeMembers fs
end

/-- A decimal digit character. -/
def isDigitChar (c : Char) : Bool :=
  48 ≤ c.toNat && c.toNat ≤ 57

/-- The continuation after a rendered number must not begin with a digit
(the separators the renderer emits — comma, brackets, braces, end of
input — all qualify). -/
def numSep : List Char → Bool
  | [] => true
  | c :: _ => !isDigitChar c

/-! ### Concrete data for witnesses and counterexamples -/

/-- A string column `name`. -/
def nameCol : Column := { name := "name", type := ColumnType.string }

/-- A jsonb column `meta`. -/
def metaCol : Column := { name := "meta", type := ColumnType.jsonb }

/-- A number column `age`. -/
def ageCol : Column := { name := "age", type := ColumnType.number }

/-- A demonstration schema: soft deletes and timestamps on, one column of
each interesting logical type, no bookkeeping column declared. -/
def demoSchema : SchemaConfigI :=
  { table_name := "users"
    columns := [nameCol, metaCol, ageCol]
    uniques := none
    timestamps := true
    softDeletes := true }

/-- An update field map binding the `jsonb` column explicitly to `null`. -/
def jsonbNullUpdate : Obj := [("id", vStr "u1"), ("meta", vNull)]

/-- An update field map for the witness: a string set, a column omitted,
a non-jsonb column set to `null`. -/
def namedUpdate : Obj := [("id", vStr "u1"), ("name", vStr "Bo"), ("age", vNull)]

/-- An insert field map owning a key that is bound to `undefined`. -/
def undefinedInsert : Obj := [("name", vUndefined)]

/-- An insert field map for the witness. -/
def namedInsert : Obj := [("name", vStr "Ana"), ("age", vNull)]

/-- A raw storage row carrying bookkeeping columns. -/
def rawRow : Obj :=
  [("id", vStr "u1"), ("name", vStr "Ana"),
   ("created_at", vStr "2024-01-01 00:00:00"),
   ("updated_at", vStr "2024-01-02 00:00:00"),
   ("deleted_at", vNull)]

/-- The decoded record `serializeData` produces from `rawRow` under the
demonstration schema: the row itself with the two columns it omitted
appended as `null`. -/
def decodedRow : Obj := rawRow ++ [("meta", vNull), ("age", vNull)]

/-- An execution capability whose every statement fails
(`success: false`). -/
def envNone : QueryEngine := fun _ => none

/-- The row the create-scenario engine returns. -/
def createdRow : Obj := [("id", vStr "u9"), ("name", vStr "Ana"), ("meta", vNull), ("age", vNum 3)]

/-- An execution capability that answers every statement with the created
row. -/
def envCreated : QueryEngine := fun _ => some [createdRow]

/-- A transient instance: no id anywhere. -/
def transientInst : ModelInst :=
  { id := vNull, schema := demoSchema, data := [("name", vStr "Ana"), ("id", vNull)] }

/-- The instance the static create returns in the create scenario. -/
def createdInst : ModelInst :=
  { id := vStr "u9", schema := demoSchema, data := createdRow }

/-- A field map with no id and one assigned column. -/
def noIdData : Obj := [("name", vStr "A")]

/-- A field map with an id and one assigned column. -/
def withIdData : Obj := [("id", vStr "u1"), ("name", vStr "A")]

/-- A nested JSON value for the round-trip witness. -/
def wJson : JSValue :=
  vObj [("a", vArr [vNum 1, vStr "x", vNull]), ("b", vBool true)]

/-! ## Lemmas about JS object semantics -/

theorem lookup_setProp_self (o : Obj) (k : String) (v : JSValue) :
    (setProp o k v).lookup k = some v := by
  induction o with
  | nil => simp [setProp, List.lookup]
  | cons p rest ih =>
    obtain ⟨k0, v0⟩ := p
    by_cases h : k0 = k
    · subst h; simp [setProp, List.lookup]
    · have hb : (k == k0) = false := beq_eq_false_iff_ne.mpr (Ne.symm h)
      simp [setProp, h, List.lookup, hb, ih]

theorem lookup_setProp_ne (o : Obj) (k k' : String) (v : JSValue) (h : k' ≠ k) :
    (setProp o k v).lookup k' = o.lookup k' := by
  have hb : (k' == k) = false := beq_eq_false_iff_ne.mpr h
  induction o with
  | nil => simp [setProp, List.lookup, hb]
  | cons p rest ih =>
    obtain ⟨k0, v0⟩ := p
    by_cases h0 : k0 = k
    · subst h0; simp [setProp, List.lookup, hb]
    · by_cases h1 : k' = k0
      · subst h1; simp [setProp, h0, List.lookup]
      · have hb1 : (k' == k0) = false := beq_eq_false_iff_ne.mpr h1
        simp [setProp, h0, List.lookup, hb1, ih]

theorem getProp_setProp_self (o : Obj) (k : String) (v : JSValue) :
    getProp (setProp o k v) k = v := by
  simp [getProp, lookup_setProp_self]

theorem getProp_setProp_ne (o : Obj) (k k' : String) (v : JSValue) (h : k' ≠ k) :
    getProp (setProp o k v) k' = getProp o k' := by
  simp [getProp, lookup_setProp_ne _ _ _ _ h]

theorem hasOwn_setProp_self (o : Obj) (k : String) (v : JSValue) :
    hasOwn (setProp o k v) k = true := by
  simp [hasOwn, lookup_setProp_self]

theorem hasOwn_setProp_ne (o : Obj) (k k' : String) (v : JSValue) (h : k' ≠ k) :
    hasOwn (setProp o k v) k' = hasOwn o k' := by
  simp [hasOwn, lookup_setProp_ne _ _ _ _ h]

theorem hasOwn_setProp_of (o : Obj) (k k' : String) (v : JSValue)
    (h : hasOwn o k' = true) : hasOwn (setProp o k v) k' = true := by
  by_cases hk : k' = k
  · subst hk; exact hasOwn_setProp_self o k' v
  · rw [hasOwn_setProp_ne o k k' v hk]; exact h

theorem truthy_getProp_hasOwn (o : Obj) (k : String)
    (h : truthy (getProp o k) = true) : hasOwn o k = true := by
  unfold getProp at h
  unfold hasOwn
  cases hl : o.lookup k with
  | none => rw [hl] at h; simp [truthy] at h
  | some v => simp

theorem lookup_sweepUndefined (o : Obj) (k : String) :
    (sweepUndefined o).lookup k =
      (o.lookup k).map fun v => if isDefined v then v else vNull := by
  induction o with
  | nil => simp [sweepUndefined, List.lookup]
  | cons p rest ih =>
    obtain ⟨k0, v0⟩ := p
    by_cases h : k = k0
    · subst h; simp [sweepUndefined, List.lookup]
    · have hb : (k == k0) = false := beq_eq_false_iff_ne.mpr h
      simpa [sweepUndefined, List.lookup, hb] using ih

theorem hasOwn_sweepUndefined (o : Obj) (k : String) :
    hasOwn (sweepUndefined o) k = hasOwn o k := by
  rw [hasOwn, hasOwn, lookup_sweepUndefined]
  cases o.lookup k <;> simp

/-! ## C10: Schema flag defaults -/

/-- C10: in the `Schema` constructor an omitted `timestamps` defaults to
`true` and an omitted `softDeletes` to `false`, while explicitly supplied
booleans are stored unchanged. -/
theorem schema_flag_defaults (t : String) (cols : List Column)
    (u : Option (List String)) :
    (∀ sd, (Schema.make t cols u none sd).timestamps = true) ∧
    (∀ ts, (Schema.make t cols u ts none).softDeletes = false) ∧
    (∀ b sd, (Schema.make t cols u (some b) sd).timestamps = b) ∧
    (∀ ts b, (Schema.make t cols u ts (some b)).softDeletes = b) :=
  ⟨fun _ => rfl, fun _ => rfl, fun _ _ => rfl, fun _ _ => rfl⟩

/-! ## C9: null encoding and the Json short-circuit

The claim calls `"null"` a "three-character literal"; the literal in the
code has four characters, so the claim is corrected on exactly that
count and confirmed in every other part. -/

/-- C9 counterexample: the `jsonb` encoding of `null` is the literal
`"null"`, which has four characters, not three as the claim states. -/
theorem json_null_literal_is_four_chars :
    processValueForStorage vNull ColumnType.jsonb = vStr "null" ∧
    ("null" : String).length ≠ 3 := by
  exact ⟨rfl, by decide⟩

/-- C9 (amended): a `null`/`undefined` value encodes to the SQL `NULL`
token for every column type except `jsonb`, which encodes it to the
four-character literal `"null"`; `jsonb` decoding short-circuits the
empty string and the literal `"null"` to `null`, and otherwise parses
the stored text. -/
theorem null_encoding_json_short_circuit :
    (∀ t, t ≠ ColumnType.jsonb →
      processValueForStorage vNull t = vNull ∧
      processValueForStorage vUndefined t = vNull) ∧
    processValueForStorage vNull ColumnType.jsonb = vStr "null" ∧
    processValueForStorage vUndefined ColumnType.jsonb = vStr "null" ∧
    ("null" : String).length = 4 ∧
    processValueFromStorage (vStr "") ColumnType.jsonb = Except.ok vNull ∧
    processValueFromStorage (vStr "null") ColumnType.jsonb = Except.ok vNull ∧
    (∀ s : String, s ≠ "" → s ≠ "null" →
      processValueFromStorage (vStr s) ColumnType.jsonb =
        (match jsonParse s with
         | some v => Except.ok v
         | none => Except.error Thrown.jsonSyntaxErr)) := by
  refine ⟨?_, rfl, rfl, by decide, rfl, rfl, ?_⟩
  · intro t ht
    cases t <;> first
      | exact absurd rfl ht
      | exact ⟨rfl, rfl⟩
  · intro s h1 h2
    simp [processValueFromStorage, isNullish, decodeCoerce, decodeJsonb, h1, h2]

/-! ## C3: soft-delete predicate injection and LIMIT 1 -/

/-- C3: with soft deletes enabled, the queries built by `all`,
`findById` and `findOne` carry the `deleted_at IS NULL` predicate unless
the caller passed `includeDeleted` as `true`, in which case it is
omitted; `findById` and `findOne` always end in `LIMIT 1`, and `all`
never does (each query is characterized exactly). -/
theorem softDelete_select_queries (schema : SchemaConfigI)
    (h : schema.softDeletes = true) (id col v : String) (inc : Option Bool) :
    (inc ≠ some true →
      allQuery schema inc =
        "SELECT * FROM " ++ schema.table_name ++ " WHERE deleted_at IS NULL" ++ ";" ∧
      findByIdQuery schema id inc =
        "SELECT * FROM " ++ schema.table_name ++ " WHERE id='" ++ id ++ "'" ++
          " AND deleted_at IS NULL" ++ " LIMIT 1;" ∧
      findOneQuery schema col v inc =
        "SELECT * FROM " ++ schema.table_name ++ " WHERE " ++ col ++ "='" ++ v ++ "'" ++
          " AND deleted_at IS NULL" ++ " LIMIT 1;") ∧
    (inc = some true →
      allQuery schema inc =
        "SELECT * FROM " ++ schema.table_name ++ "" ++ ";" ∧
      findByIdQuery schema id inc =
        "SELECT * FROM " ++ schema.table_name ++ " WHERE id='" ++ id ++ "'" ++
          "" ++ " LIMIT 1;" ∧
      findOneQuery schema col v inc =
        "SELECT * FROM " ++ schema.table_name ++ " WHERE " ++ col ++ "='" ++ v ++ "'" ++
          "" ++ " LIMIT 1;") := by
  constructor
  · intro hinc
    have hopt : optTruthy inc = false := by
      cases inc with
      | none => rfl
      | some b => cases b with
        | true => exact absurd rfl hinc
        | false => rfl
    refine ⟨?_, ?_, ?_⟩ <;> simp [allQuery, findByIdQuery, findOneQuery, h, hopt]
  · intro hinc
    subst hinc
    refine ⟨?_, ?_, ?_⟩ <;> simp [allQuery, findByIdQuery, findOneQuery, h, optTruthy]

/-- C3 witness: the three queries at the demonstration schema, with
`includeDeleted` omitted. -/
theorem softDelete_select_queries_witness :
    allQuery demoSchema none =
      "SELECT * FROM " ++ demoSchema.table_name ++ " WHERE deleted_at IS NULL" ++ ";" ∧
    findByIdQuery demoSchema "u1" none =
      "SELECT * FROM " ++ demoSchema.table_name ++ " WHERE id='" ++ "u1" ++ "'" ++
        " AND deleted_at IS NULL" ++ " LIMIT 1;" :=
  ⟨((softDelete_select_queries demoSchema rfl "u1" "name" "Ana" none).1 (by simp)).1,
   ((softDelete_select_queries demoSchema rfl "u1" "name" "Ana" none).1 (by simp)).2.1⟩

/-! ## C2: update assignment-list semantics

The claim's presence-by-ownership part holds exactly; its "explicit
`null` produces an assignment to NULL" part fails on `jsonb` columns,
where `null` encodes to the quoted literal `'null'` by the codec's
design (see C9). -/

/-- C2 counterexample: an update field map binding the `jsonb` column
`meta` explicitly to `null` generates the assignment `meta = 'null'`,
not `meta = NULL` as the claim states. -/
theorem update_null_jsonb_assignment :
    truthy (getProp jsonbNullUpdate "id") = true ∧
    getProp jsonbNullUpdate "meta" = vNull ∧
    updateEntries jsonbNullUpdate demoSchema = [("meta", "'null'")] :=
  ⟨rfl, rfl, rfl⟩

/-- C2 (amended): for a field map with a non-empty id, the UPDATE
assignment list contains exactly the schema columns (other than `id`)
that are own keys of the map — an absent key never appears — and a key
explicitly bound to `null` produces an assignment to `NULL` for every
non-`jsonb` column, while a `jsonb` column gets the literal `'null'`. -/
theorem update_assignment_semantics (schema : SchemaConfigI) (data : Obj)
    (hid : truthy (getProp data "id") = true) :
    ((updateEntries data schema).map Prod.fst =
      (schema.columns.filter fun c => c.name != "id" && hasOwn data c.name).map
        Column.name) ∧
    (∀ k, hasOwn data k = false → ∀ e ∈ updateEntries data schema, e.1 ≠ k) ∧
    (∀ c ∈ schema.columns, c.name ≠ "id" → hasOwn data c.name = true →
      getProp data c.name = vNull → c.type ≠ ColumnType.jsonb →
      (c.name, "NULL") ∈ updateEntries data schema) ∧
    (∀ c ∈ schema.columns, c.name ≠ "id" → hasOwn data c.name = true →
      getProp data c.name = vNull → c.type = ColumnType.jsonb →
      (c.name, "'null'") ∈ updateEntries data schema) := by
  obtain ⟨tn, cols, u, ts, sd⟩ := schema
  refine ⟨?_, ?_, ?_, ?_⟩
  · induction cols with
    | nil => rfl
    | cons c cs ih =>
      by_cases h1 : c.name = "id"
      · simpa [updateEntries, List.filterMap_cons, List.filter_cons, h1] using ih
      · by_cases h2 : hasOwn data c.name
        · simpa [updateEntries, List.filterMap_cons, List.filter_cons, h1, h2] using ih
        · simpa [updateEntries, List.filterMap_cons, List.filter_cons, h1, h2] using ih
  · intro k hk e he
    rw [updateEntries] at he
    obtain ⟨c, _, hfc⟩ := List.mem_filterMap.mp he
    by_cases h1 : c.name = "id"
    · simp [h1] at hfc
    · by_cases h2 : hasOwn data c.name
      · simp [h1, h2] at hfc
        intro heq
        rw [← hfc] at heq
        simp only [] at heq
        rw [heq] at h2
        rw [hk] at h2
        exact Bool.false_ne_true h2
      · simp [h1, h2] at hfc
  · intro c hc h1 h2 h3 h4
    rw [updateEntries]
    refine List.mem_filterMap.mpr ⟨c, hc, ?_⟩
    rw [h3]
    cases ht : c.type <;> simp_all [processValueForStorage, isNullish,
      storageNullFor, updateRhs, h1, h2]
  · intro c hc h1 h2 h3 h4
    rw [updateEntries]
    refine List.mem_filterMap.mpr ⟨c, hc, ?_⟩
    rw [h3, h4]
    simp [processValueForStorage, isNullish, storageNullFor, updateRhs, h1, h2,
      jsToString]

/-- C2 witness: the assignment-list column names at a concrete schema and
field map (string column set, `number` column set to `null`, one column
omitted). -/
theorem update_assignment_semantics_witness :
    (updateEntries namedUpdate demoSchema).map Prod.fst =
      (demoSchema.columns.filter fun c => c.name != "id" && hasOwn namedUpdate c.name).map
        Column.name :=
  (update_assignment_semantics demoSchema namedUpdate rfl).1

/-! ## C8: update never assigns `id` or `created_at`, always refreshes
`updated_at` when timestamps are enabled -/

/-- C8: on a schema that does not declare `created_at`, every generated
assignment targets neither `created_at` nor `id`, and with timestamps
enabled the built UPDATE statement carries the trailing
`updated_at = datetime('now')` assignment. -/
theorem update_frame_effect (schema : SchemaConfigI) (data : Obj)
    (hid : truthy (getProp data "id") = true)
    (hca : "created_at" ∉ schema.columns.map Column.name) :
    (∀ e ∈ updateEntries data schema, e.1 ≠ "created_at" ∧ e.1 ≠ "id") ∧
    (schema.timestamps = true → updateAttributesJoined data schema ≠ "" →
      updateAction data schema = UpdateAction.runQuery
        ("UPDATE " ++ schema.table_name ++ " SET " ++
          updateAttributesJoined data schema ++ ", updated_at = datetime('now')" ++
          " WHERE id='" ++ jsToString (getProp data "id") ++ "' RETURNING *;")) := by
  constructor
  · intro e he
    rw [updateEntries] at he
    obtain ⟨c, hc, hfc⟩ := List.mem_filterMap.mp he
    by_cases h1 : c.name = "id"
    · simp [h1] at hfc
    · by_cases h2 : hasOwn data c.name
      · simp [h1, h2] at hfc
        rw [← hfc]
        constructor
        · intro heq
          exact hca (heq ▸ List.mem_map_of_mem Column.name hc)
        · exact h1
      · simp [h1, h2] at hfc
  · intro hts hattr
    rw [updateAction]
    simp only [hid, Bool.not_true, Bool.false_eq_true, if_false, hattr, if_neg hattr,
      hts, if_true]

/-- C8 witness: the UPDATE statement built at the demonstration schema
(which declares no `created_at`) for a concrete field map. -/
theorem update_frame_effect_witness :
    updateAction namedUpdate demoSchema = UpdateAction.runQuery
      ("UPDATE " ++ demoSchema.table_name ++ " SET " ++
        updateAttributesJoined namedUpdate demoSchema ++
        ", updated_at = datetime('now')" ++ " WHERE id='" ++
        jsToString (getProp namedUpdate "id") ++ "' RETURNING *;") :=
  (update_frame_effect demoSchema namedUpdate rfl (by decide)).2 rfl (by decide)

/-! ## C5: INSERT statement shape

The claim's key-list description says "the schema columns present as
keys of the field-map"; the insert branch actually tests
`data[column.name] !== undefined`, so a key that is owned but bound to
`undefined` is omitted.  The claim fails on exactly that input and is
amended to "present with a defined value"; every other part holds. -/

/-- C5 counterexample: the field map owns the key `name` (bound to
`undefined`), `name` is a schema column, yet the generated key list is
just `id`. -/
theorem insert_undefined_key_omitted :
    truthy (getProp undefinedInsert "id") = false ∧
    hasOwn undefinedInsert "name" = true ∧
    "name" ∈ demoSchema.columns.map Column.name ∧
    insertKeys undefinedInsert demoSchema = ["id"] :=
  ⟨rfl, rfl, by decide, rfl⟩

/-- C5 (amended): for an insert field map with no usable id, the key
list starts with `id`, the value list with the freshly generated UUID;
a non-`id` key is listed iff some schema column of that name has a
defined (non-`undefined`) value in the map; every value other than the
`NULL` token is single-quote wrapped while `NULL` stays unwrapped; and
with timestamps enabled the INSERT appends `created_at`/`updated_at`
bound to the engine's `datetime('now')`. -/
theorem insert_statement_shape (uuid : String) (schema : SchemaConfigI) (data : Obj)
    (hid : truthy (getProp data "id") = false) :
    (insertKeys data schema).head? = some "id" ∧
    (insertValues uuid data schema).head? = some uuid ∧
    (∀ k, k ≠ "id" →
      (k ∈ insertKeys data schema ↔
        ∃ c, c ∈ schema.columns ∧ c.name = k ∧
          isDefined (getProp data c.name) = true)) ∧
    (∀ v ∈ insertValues uuid data schema, v ≠ "NULL" →
      formatValue v = "'" ++ v ++ "'") ∧
    formatValue "NULL" = "NULL" ∧
    deserializeData uuid data schema =
      DeserializedData.insertData (insertValuesJoined uuid data schema)
        (insertKeysJoined data schema) ∧
    (schema.timestamps = true → createQuery uuid data schema =
      "INSERT INTO " ++ schema.table_name ++ " (" ++ insertKeysJoined data schema ++
        ", created_at, updated_at" ++ ") VALUES(" ++
        insertValuesJoined uuid data schema ++
        ", datetime('now'), datetime('now')" ++ ") RETURNING *;") := by
  refine ⟨rfl, rfl, ?_, ?_, rfl, ?_, ?_⟩
  · intro k hk
    simp only [insertKeys, insertColumns, List.mem_cons, hk, false_or, List.mem_map,
      List.mem_filter]
    constructor
    · rintro ⟨c, ⟨hc, hdef⟩, hname⟩
      exact ⟨c, hc, hname, hdef⟩
    · rintro ⟨c, hc, hname, hdef⟩
      exact ⟨c, ⟨hc, hdef⟩, hname⟩
  · intro v _ hv
    simp [formatValue, hv]
  · simp [deserializeData, hid]
  · intro hts
    simp [createQuery, deserializeData, hid, hts]

/-- C5 witness: the INSERT statement built at the demonstration schema
for a concrete no-id field map. -/
theorem insert_statement_shape_witness :
    createQuery "w-uuid" namedInsert demoSchema =
      "INSERT INTO " ++ demoSchema.table_name ++ " (" ++
        insertKeysJoined namedInsert demoSchema ++ ", created_at, updated_at" ++
        ") VALUES(" ++ insertValuesJoined "w-uuid" namedInsert demoSchema ++
        ", datetime('now'), datetime('now')" ++ ") RETURNING *;" :=
  (insert_statement_shape "w-uuid" demoSchema namedInsert rfl).2.2.2.2.2.2 rfl

/-! ## C7: behavior on a missing id

Only the instance-level update fails with a distinguishable error kind
(a thrown `ModelError`).  The static update logs and returns `null`,
which is exactly what it also returns for a failed or not-found update —
no caller can branch on the missing-id case — and the static delete
returns a plain message object. -/

/-- C7 counterexample: the static update without a usable id returns the
same value (`null`, no error) as a static update with a valid id whose
statement fails — the missing-id outcome is not a specific, stable error
kind a caller could branch on. -/
theorem missing_id_update_indistinguishable :
    staticUpdate demoSchema noIdData envNone = Except.ok none ∧
    staticUpdate demoSchema withIdData envNone = Except.ok none :=
  ⟨rfl, rfl⟩

/-- C7 (amended): without a usable id, the instance-level update throws
the `ModelError` "Instance data is missing an ID, cannot update."; the
static update returns `null` (indistinguishable from a failed update);
the static delete returns the message object `ID is missing.` without
reaching the engine. -/
theorem missing_id_behaviors (schema : SchemaConfigI) (env : QueryEngine)
    (inst : ModelInst) (p : Obj) (data : Obj)
    (hinst : truthy (getProp inst.data "id") = false)
    (hdata : truthy (getProp data "id") = false) :
    instanceUpdate schema inst p env =
      Except.error (Thrown.modelErr "Instance data is missing an ID, cannot update." []) ∧
    staticUpdate schema data env = Except.ok none ∧
    staticDelete schema "" env = [("message", vStr "ID is missing.")] := by
  refine ⟨?_, ?_, ?_⟩
  · simp [instanceUpdate, hinst]
  · have h : updateAction data schema = UpdateAction.missingId := by
      simp [updateAction, hdata]
    simp [staticUpdate, h]
    rfl
  · simp [staticDelete]

/-- C7 witness: the thrown `ModelError` at a concrete transient
instance. -/
theorem missing_id_behaviors_witness :
    instanceUpdate demoSchema transientInst [] envNone =
      Except.error (Thrown.modelErr "Instance data is missing an ID, cannot update." []) :=
  (missing_id_behaviors demoSchema envNone transientInst [] noIdData rfl rfl).1

/-! ## C4: record mapping

`serializeData` and `createModelInstance` never strip the bookkeeping
columns — the Public (non-complete) view retains `created_at`,
`updated_at` and `deleted_at` in the decoded record (the Complete view
returns the raw row).  The claim's stripping part fails; its totality
part (every schema column present, missing raw value decoded to `null`)
holds. -/

theorem foldl_serializeStep_error (data : Obj) (cols : List Column) (e : Thrown) :
    cols.foldl (serializeStep data) (Except.error e) = Except.error e := by
  induction cols with
  | nil => rfl
  | cons c cs ih => simpa [serializeStep] using ih

/-- One eliminated step: from an `ok` accumulator the step either throws
or writes the column (a defined raw value decodes, a missing one becomes
`null`). -/
theorem serializeStep_cases (data : Obj) (a : Obj) (c : Column) :
    (∃ e, serializeStep data (Except.ok a) c = Except.error e) ∨
    ∃ v, serializeStep data (Except.ok a) c = Except.ok (setProp a c.name v) ∧
      (isDefined (getProp data c.name) = false → v = vNull) := by
  rw [serializeStep]
  by_cases hdef : isDefined (getProp data c.name) = true
  · cases hv : processValueFromStorage (getProp data c.name) c.type with
    | error e =>
      left
      exact ⟨e, by simp [hdef, hv]⟩
    | ok v =>
      right
      exact ⟨v, by simp [hdef, hv], fun hc => absurd hdef (by simp [hc])⟩
  · right
    refine ⟨vNull, ?_, fun _ => rfl⟩
    simp [hdef]

theorem foldl_serializeStep_hasOwn (data : Obj) (cols : List Column) :
    ∀ (a res : Obj), cols.foldl (serializeStep data) (Except.ok a) = Except.ok res →
      ∀ k, hasOwn a k = true → hasOwn res k = true := by
  induction cols with
  | nil =>
    intro a res h k hk
    cases h
    exact hk
  | cons c cs ih =>
    intro a res h k hk
    rw [List.foldl_cons] at h
    rcases serializeStep_cases data a c with ⟨e, hbad⟩ | ⟨v, hgood, _⟩
    · rw [hbad, foldl_serializeStep_error] at h
      cases h
    · rw [hgood] at h
      exact ih _ _ h k (hasOwn_setProp_of _ _ _ _ hk)

theorem foldl_serializeStep_columns (data : Obj) (cols : List Column) :
    ∀ (a res : Obj), cols.foldl (serializeStep data) (Except.ok a) = Except.ok res →
      ∀ c ∈ cols, hasOwn res c.name = true := by
  induction cols with
  | nil =>
    intro a res _ c hc
    cases hc
  | cons c0 cs ih =>
    intro a res h c hc
    rw [List.foldl_cons] at h
    rcases serializeStep_cases data a c0 with ⟨e, hbad⟩ | ⟨v, hgood, _⟩
    · rw [hbad, foldl_serializeStep_error] at h
      cases h
    · rw [hgood] at h
      rcases List.mem_cons.mp hc with heq | htl
      · subst heq
        exact foldl_serializeStep_hasOwn data cs _ _ h c.name
          (hasOwn_setProp_self _ _ _)
      · exact ih _ _ h c htl

theorem foldl_serializeStep_missing (data : Obj) (cols : List Column) :
    ∀ (a res : Obj), cols.foldl (serializeStep data) (Except.ok a) = Except.ok res →
      ∀ k, isDefined (getProp data k) = false →
        (k ∈ cols.map Column.name → getProp res k = vNull) ∧
        (k ∉ cols.map Column.name → getProp res k = getProp a k) := by
  induction cols with
  | nil =>
    intro a res h k _
    cases h
    exact ⟨fun hk => absurd hk (by simp), fun _ => rfl⟩
  | cons c0 cs ih =>
    intro a res h k hk
    rw [List.foldl_cons] at h
    rcases serializeStep_cases data a c0 with ⟨e, hbad⟩ | ⟨v, hgood, hnullv⟩
    · rw [hbad, foldl_serializeStep_error] at h
      cases h
    · rw [hgood] at h
      have hrec := ih _ _ h k hk
      by_cases hname : c0.name = k
      · subst hname
        constructor
        · intro _
          by_cases hmem : c0.name ∈ cs.map Column.name
          · exact hrec.1 hmem
          · rw [hrec.2 hmem, hnullv (hk ▸ hk)]
            · exact getProp_setProp_self _ _ _
        · intro hmem
          exact absurd (by simp) hmem
      · constructor
        · intro hmem
          have hmem2 : k ∈ cs.map Column.name := by
            rcases List.mem_map.mp hmem with ⟨c, hc, hcn⟩
            rcases List.mem_cons.mp hc with rfl | hc2
            · exact absurd hcn hname
            · exact List.mem_map.mpr ⟨c, hc2, hcn⟩
          exact hrec.1 hmem2
        · intro hmem
          have hmem2 : k ∉ cs.map Column.name := fun hx =>
            hmem (List.mem_cons_of_mem _ hx)
          rw [hrec.2 hmem2]
          exact getProp_setProp_ne _ _ _ _ fun hh => hname hh.symm

/-- C4 counterexample: the raw row carries `created_at`, and the record
built for the Public (non-complete) view still owns it — the bookkeeping
columns are not stripped. -/
theorem public_view_retains_bookkeeping :
    hasOwn rawRow "created_at" = true ∧
    (serializeData rawRow demoSchema).map
      (fun res => hasOwn (createModelInstance res demoSchema).data "created_at") =
      Except.ok true :=
  ⟨rfl, rfl⟩

/-- C4 (amended): the decoded record keeps every key of the raw row
(bookkeeping columns included — the Public view strips nothing), every
schema column is present with a missing raw value decoded to `null`, the
instance constructor preserves the decoded map, and the Complete view
returns the raw row verbatim. -/
theorem record_mapping_total (schema : SchemaConfigI) (row res : Obj)
    (h : serializeData row schema = Except.ok res) :
    (∀ k, hasOwn row k = true → hasOwn res k = true) ∧
    (∀ c ∈ schema.columns, hasOwn res c.name = true) ∧
    (∀ c ∈ schema.columns, isDefined (getProp row c.name) = false →
      getProp res c.name = vNull) ∧
    (∀ k, hasOwn (createModelInstance res schema).data k = hasOwn res k) ∧
    (∀ k, getProp (createModelInstance res schema).data k = getProp res k) ∧
    (∀ id env inc r0 rest, env (findByIdQuery schema id inc) = some (r0 :: rest) →
      findByIdModel schema id env (some true) inc = Except.ok (FindRet.raw r0)) := by
  have hfold : ∃ r, schema.columns.foldl (serializeStep row) (Except.ok row) =
      Except.ok r ∧ res = sweepUndefined r := by
    rw [serializeData] at h
    cases hf : schema.columns.foldl (serializeStep row) (Except.ok row) with
    | ok r =>
      rw [hf] at h
      cases h
      exact ⟨r, rfl, rfl⟩
    | error e =>
      rw [hf] at h
      cases h
  obtain ⟨r, hf, hres⟩ := hfold
  subst hres
  refine ⟨?_, ?_, ?_, ?_, ?_, ?_⟩
  · intro k hk
    rw [hasOwn_sweepUndefined]
    exact foldl_serializeStep_hasOwn row schema.columns row r hf k hk
  · intro c hc
    rw [hasOwn_sweepUndefined]
    exact foldl_serializeStep_columns row schema.columns row r hf c hc
  · intro c hc hmiss
    have := (foldl_serializeStep_missing row schema.columns row r hf c.name hmiss).1
      (List.mem_map_of_mem Column.name hc)
    rw [getProp, lookup_sweepUndefined]
    rw [getProp] at this
    cases hl : r.lookup c.name with
    | none => rw [hl] at this; exact absurd this (by simp [isDefined])
    | some v =>
      rw [hl] at this
      simp only [Option.getD] at this
      subst this
      rfl
  · intro k
    rw [createModelInstance]
    by_cases hidt : truthy (getProp (sweepUndefined r) "id") = true
    · simp only [hidt, if_true]
      by_cases hk : k = "id"
      · subst hk
        rw [hasOwn_setProp_self]
        exact (truthy_getProp_hasOwn _ _ hidt).symm
      · exact hasOwn_setProp_ne _ _ _ _ hk
    · simp only [hidt, if_false]
      simp [Bool.not_eq_true] at hidt
      simp [hidt]
  · intro k
    rw [createModelInstance]
    by_cases hidt : truthy (getProp (sweepUndefined r) "id") = true
    · simp only [hidt, if_true]
      by_cases hk : k = "id"
      · subst hk
        exact getProp_setProp_self _ _ _
      · exact getProp_setProp_ne _ _ _ _ hk
    · simp [Bool.not_eq_true] at hidt
      simp [hidt]
  · intro id env inc r0 rest henv
    rw [findByIdModel, henv]
    rfl

/-- C4 witness: the decoded record of the raw row under the
demonstration schema: the missing `meta` column decodes to `null`. -/
theorem record_mapping_total_witness :
    getProp decodedRow "meta" = vNull :=
  (record_mapping_total demoSchema rawRow decodedRow rfl).2.2.1 metaCol
    (by simp [demoSchema]) rfl

/-! ## C6: `save` on an instance with no id -/

/-- C6: for an instance with no id anywhere, `save` routes to the static
create (its result is exactly a function of the create call), and on a
successful create whose record carries a truthy id, `save` returns the
caller's own instance mutated in place — same `schema` field, `data`
synchronized with the created record, and a now-truthy `id`. -/
theorem save_routes_to_create (uuid : String) (cs : SchemaConfigI)
    (inst : ModelInst) (env : QueryEngine)
    (h1 : truthy inst.id = false)
    (h2 : truthy (getProp inst.data "id") = false) :
    (save uuid cs inst env =
      match staticCreate uuid cs (createPayload inst.data) env with
      | Except.ok (some ri) => Except.ok (some { inst with
          data := ri.data
          id := if truthy (getProp ri.data "id") then getProp ri.data "id" else vNull })
      | Except.ok none => Except.ok none
      | Except.error e => Except.error e) ∧
    (∀ ri, staticCreate uuid cs (createPayload inst.data) env = Except.ok (some ri) →
      truthy (getProp ri.data "id") = true →
      save uuid cs inst env =
        Except.ok (some { inst with data := ri.data, id := getProp ri.data "id" }) ∧
      ({ inst with data := ri.data, id := getProp ri.data "id" } : ModelInst).schema =
        inst.schema ∧
      truthy ({ inst with data := ri.data, id := getProp ri.data "id" } : ModelInst).id =
        true) := by
  have hmain : save uuid cs inst env =
      match staticCreate uuid cs (createPayload inst.data) env with
      | Except.ok (some ri) => Except.ok (some { inst with
          data := ri.data
          id := if truthy (getProp ri.data "id") then getProp ri.data "id" else vNull })
      | Except.ok none => Except.ok none
      | Except.error e => Except.error e := by
    rw [save]
    simp only [h1, Bool.false_and, Bool.false_eq_true, if_false, h2]
    cases hc : staticCreate uuid cs (createPayload inst.data) env with
    | ok o =>
      cases o with
      | some ri => rfl
      | none => rfl
    | error e => rfl
  refine ⟨hmain, ?_⟩
  intro ri hc hid
  rw [hmain, hc]
  exact ⟨by simp [hid], rfl, by simpa using hid⟩

/-- C6 witness: saving a concrete transient instance against an engine
that returns the created row yields the caller's instance carrying the
new id `u9`. -/
theorem save_routes_to_create_witness :
    save "w-uuid" demoSchema transientInst envCreated =
      Except.ok (some { transientInst with
        data := createdInst.data, id := getProp createdInst.data "id" }) :=
  ((save_routes_to_create "w-uuid" demoSchema transientInst envCreated rfl rfl).2
    createdInst rfl rfl).1

/-! ## C1: the codec round trip

The round trip for the `jsonb` type needs that the modelled `JSON.parse`
re-reads everything the modelled `JSON.stringify` emits.  The next
sections prove that re-read lemma: first decimal numbers, then escaped
strings, then the mutual value/array/object induction. -/

theorem toNat_digitCharOf (n : Nat) : (digitCharOf n).toNat = 48 + n % 10 := by
  have h : n % 10 < 10 := Nat.mod_lt _ (by omega)
  rw [digitCharOf]
  set m := n % 10 with hm
  interval_cases m <;> rfl

theorem isDigitChar_digitCharOf (n : Nat) : isDigitChar (digitCharOf n) = true := by
  have h : n % 10 < 10 := Nat.mod_lt _ (by omega)
  simp [isDigitChar, toNat_digitCharOf]
  omega

theorem natDigitsAux_acc (fuel : Nat) :
    ∀ (n : Nat) (acc : List Char),
      natDigitsAux fuel n acc = natDigitsAux fuel n [] ++ acc := by
  induction fuel with
  | zero => intro n acc; simp [natDigitsAux]
  | succ f ih =>
    intro n acc
    by_cases h : n < 10
    · simp [natDigitsAux, h]
    · rw [natDigitsAux, natDigitsAux, if_neg h, if_neg h, ih (n / 10),
        ih (n / 10) [digitCharOf n]]
      simp

theorem natDigitsAux_fuel (n : Nat) :
    ∀ (f1 f2 : Nat), n < f1 → n < f2 → ∀ acc,
      natDigitsAux f1 n acc = natDigitsAux f2 n acc := by
  induction n using Nat.strong_induction_on with
  | _ n ih =>
    intro f1 f2 h1 h2 acc
    cases f1 with
    | zero => omega
    | succ g1 =>
      cases f2 with
      | zero => omega
      | succ g2 =>
        by_cases h : n < 10
        · simp [natDigitsAux, h]
        · rw [natDigitsAux, natDigitsAux, if_neg h, if_neg h]
          exact ih (n / 10) (by omega) g1 g2 (by omega) (by omega) _

theorem natDigits_eq (n : Nat) :
    natDigits n =
      if n < 10 then [digitCharOf n]
      else natDigits (n / 10) ++ [digitCharOf n] := by
  by_cases h : n < 10
  · simp [natDigits, natDigitsAux, h]
  · rw [if_neg h, natDigits, natDigitsAux, if_neg h,
      natDigitsAux_acc n (n / 10) [digitCharOf n],
      natDigitsAux_fuel (n / 10) n (n / 10 + 1) (by omega) (by omega) []]
    rfl

theorem natDigits_ne_nil (n : Nat) : natDigits n ≠ [] := by
  rw [natDigits_eq]
  by_cases h : n < 10 <;> simp [h]

theorem natDigits_all_digits (n : Nat) :
    ∀ c ∈ natDigits n, isDigitChar c = true := by
  induction n using Nat.strong_induction_on with
  | _ n ih =>
    rw [natDigits_eq]
    by_cases h : n < 10
    · simp only [h, if_pos]
      intro c hc
      rcases List.mem_singleton.mp hc with rfl
      exact isDigitChar_digitCharOf n
    · simp only [h, if_neg, not_false_iff]
      intro c hc
      rcases List.mem_append.mp hc with h1 | h2
      · exact ih (n / 10) (by omega) c h1
      · rcases List.mem_singleton.mp h2 with rfl
        exact isDigitChar_digitCharOf n

theorem digitsToNat_append_one (ds : List Char) (d : Char) :
    digitsToNat (ds ++ [d]) = digitsToNat ds * 10 + (d.toNat - 48) := by
  rw [digitsToNat, digitsToNat, List.foldl_append]
  rfl

theorem digitsToNat_natDigits (n : Nat) : digitsToNat (natDigits n) = n := by
  induction n using Nat.strong_induction_on with
  | _ n ih =>
    rw [natDigits_eq]
    by_cases h : n < 10
    · simp only [h, if_pos]
      rw [digitsToNat]
      simp [toNat_digitCharOf]
      omega
    · simp only [h, if_neg, not_false_iff]
      rw [digitsToNat_append_one, ih (n / 10) (by omega), toNat_digitCharOf]
      omega

theorem takeDigits_append (ds rest : List Char)
    (hds : ∀ c ∈ ds, isDigitChar c = true) (hrest : numSep rest = true) :
    takeDigits (ds ++ rest) = (ds, rest) := by
  induction ds with
  | nil =>
    rw [List.nil_append]
    cases rest with
    | nil => rfl
    | cons c cs =>
      rw [numSep] at hrest
      have hnd : ¬(48 ≤ c.toNat ∧ c.toNat ≤ 57) := by
        have := hrest
        simp [isDigitChar] at this
        omega
      rw [takeDigits, if_neg hnd]
  | cons d ds' ih =>
    have hd' : 48 ≤ d.toNat ∧ d.toNat ≤ 57 := by
      simpa [isDigitChar] using hds d (List.mem_cons_self d ds')
    have ih' := ih fun c hc => hds c (List.mem_cons_of_mem _ hc)
    rw [List.cons_append, takeDigits, if_pos hd']
    simp [ih']

theorem parseNum_intDigits (n : Int) (rest : List Char)
    (hrest : numSep rest = true) :
    parseNum (intDigits n ++ rest) = some (vNum n, rest) := by
  by_cases hn : n < 0
  · rw [intDigits, if_pos hn, List.cons_append, parseNum, if_pos rfl,
      takeDigits_append _ _ (natDigits_all_digits _) hrest]
    cases hds : natDigits n.natAbs with
    | nil => exact absurd hds (natDigits_ne_nil _)
    | cons d ds =>
      have hval : digitsToNat (d :: ds) = n.natAbs :=
        hds ▸ digitsToNat_natDigits n.natAbs
      have hneg : -((n.natAbs : Nat) : Int) = n := by omega
      simp only [hval, hneg]
  · rw [intDigits, if_neg hn]
    cases hds : natDigits n.natAbs with
    | nil => exact absurd hds (natDigits_ne_nil _)
    | cons d ds =>
      have hdig : isDigitChar d = true := by
        have := natDigits_all_digits n.natAbs d (by rw [hds]; exact List.mem_cons_self _ _)
        exact this
      have hdm : d ≠ '-' := by
        intro hcon
        rw [hcon] at hdig
        simp [isDigitChar] at hdig
      have hall : ∀ c ∈ d :: ds, isDigitChar c = true := by
        rw [← hds]; exact natDigits_all_digits n.natAbs
      rw [List.cons_append, parseNum, if_neg hdm, ← List.cons_append,
        takeDigits_append _ _ hall hrest]
      have hval : digitsToNat (d :: ds) = n.natAbs :=
        hds ▸ digitsToNat_natDigits n.natAbs
      have hpos : ((n.natAbs : Nat) : Int) = n := by omega
      simp only [hval, hpos]

theorem hexVal_hexDigitChar (n : Nat) (h : n < 16) :
    hexVal (hexDigitChar n) = some n := by
  interval_cases n <;> rfl

theorem parseStrBody_cons_plain (c : Char) (tail : List Char)
    (h1 : c ≠ '"') (h2 : c ≠ '\\') :
    parseStrBody (c :: tail) = (parseStrBody tail).map fun p => (c :: p.1, p.2) := by
  conv_lhs => rw [parseStrBody.eq_def]
  simp [h1, h2]

/-- One escaped character re-reads to itself: prepending `escapeChar c`
to the input makes the string-body parser produce `c` and continue. -/
theorem parseStrBody_esc (c : Char) (tail : List Char) :
    parseStrBody (escapeChar c ++ tail) =
      (parseStrBody tail).map fun p => (c :: p.1, p.2) := by
  rw [escapeChar]
  by_cases h1 : c = '"'
  · rw [if_pos h1, h1]
    conv_lhs => rw [parseStrBody.eq_def]
    simp [escCharOf]
  · rw [if_neg h1]
    by_cases h2 : c = '\\'
    · rw [if_pos h2, h2]
      conv_lhs => rw [parseStrBody.eq_def]
      simp [escCharOf]
    · rw [if_neg h2]
      by_cases hb : c = Char.ofNat 8
      · rw [if_pos hb, hb]
        conv_lhs => rw [parseStrBody.eq_def]
        simp [escCharOf]
      · rw [if_neg hb]
        by_cases ht : c = Char.ofNat 9
        · rw [if_pos ht, ht]
          conv_lhs => rw [parseStrBody.eq_def]
          simp [escCharOf]
        · rw [if_neg ht]
          by_cases hn : c = Char.ofNat 10
          · rw [if_pos hn, hn]
            conv_lhs => rw [parseStrBody.eq_def]
            simp [escCharOf]
          · rw [if_neg hn]
            by_cases hf : c = Char.ofNat 12
            · rw [if_pos hf, hf]
              conv_lhs => rw [parseStrBody.eq_def]
              simp [escCharOf]
            · rw [if_neg hf]
              by_cases hr : c = Char.ofNat 13
              · rw [if_pos hr, hr]
                conv_lhs => rw [parseStrBody.eq_def]
                simp [escCharOf]
              · rw [if_neg hr]
                by_cases h32 : c.toNat < 32
                · rw [if_pos h32]
                  have hq : hexQuad '0' '0' (hexDigitChar (c.toNat / 16))
                      (hexDigitChar (c.toNat % 16)) = some c.toNat := by
                    rw [hexQuad, hexVal_hexDigitChar _ (by omega),
                      hexVal_hexDigitChar _ (by omega),
                      show hexVal '0' = some 0 from rfl]
                    show some (((0 * 16 + 0) * 16 + c.toNat / 16) * 16 +
                      c.toNat % 16) = some c.toNat
                    exact congrArg some (by omega)
                  conv_lhs => rw [parseStrBody.eq_def]
                  simp [hq, Char.ofNat_toNat]
                · rw [if_neg h32, List.singleton_append]
                  exact parseStrBody_cons_plain c tail h1 h2

/-- The escaped body of a string re-reads to the original characters. -/
theorem parseStrBody_escBody (s rest : List Char) :
    parseStrBody (escBody s ++ '"' :: rest) = some (s, rest) := by
  induction s with
  | nil =>
    rw [escBody, List.nil_append]
    conv_lhs => rw [parseStrBody.eq_def]
    simp
  | cons c cs ih =>
    rw [escBody, List.append_assoc, parseStrBody_esc, ih]
    rfl

theorem jsize_pos (v : JSValue) : 1 ≤ jsize v := by
  cases v <;> simp [jsize]

/-- Every well-typed JSON value renders (only `undefined` makes
`JSON.stringify` return no string). -/
theorem render_isSome (v : JSValue) (hw : wellTypedJson v = true) :
    ∃ cs, render v = some cs := by
  cases v with
  | vUndefined => simp [wellTypedJson] at hw
  | vNaN => simp [wellTypedJson] at hw
  | vDate iso => simp [wellTypedJson] at hw
  | vNull => exact ⟨_, rfl⟩
  | vBool b => cases b <;> exact ⟨_, rfl⟩
  | vNum n => exact ⟨_, rfl⟩
  | vStr s => exact ⟨_, rfl⟩
  | vArr xs => exact ⟨_, rfl⟩
  | vObj fs => exact ⟨_, rfl⟩

theorem intDigits_head (n : Int) :
    ∃ c cs', intDigits n = c :: cs' ∧ (c = '-' ∨ isDigitChar c = true) := by
  rw [intDigits]
  by_cases hn : n < 0
  · rw [if_pos hn]
    exact ⟨'-', _, rfl, Or.inl rfl⟩
  · rw [if_neg hn]
    cases hds : natDigits n.natAbs with
    | nil => exact absurd hds (natDigits_ne_nil _)
    | cons d ds =>
      exact ⟨d, ds, rfl, Or.inr (natDigits_all_digits _ d
        (by rw [hds]; exact List.mem_cons_self _ _))⟩

/-- The first character of a rendered number is no keyword, quote or
bracket opener. -/
theorem nonNumHead_ne (c : Char) (h : c = '-' ∨ isDigitChar c = true) :
    c ≠ 'n' ∧ c ≠ 't' ∧ c ≠ 'f' ∧ c ≠ '"' ∧ c ≠ '[' ∧ c ≠ lbrace := by
  rcases h with rfl | hd
  · refine ⟨by decide, by decide, by decide, by decide, by decide, by decide⟩
  · refine ⟨?_, ?_, ?_, ?_, ?_, ?_⟩ <;>
      (intro hcon; rw [hcon] at hd; exact absurd hd (by decide))

/-- The first character of any rendered well-typed value is not a
closing bracket, closing brace or comma. -/
theorem render_head (v : JSValue) (cs : List Char) (hw : wellTypedJson v = true)
    (hr : render v = some cs) :
    ∃ c0 cs', cs = c0 :: cs' ∧ c0 ≠ ']' ∧ c0 ≠ rbrace ∧ c0 ≠ ',' := by
  cases v with
  | vUndefined => simp [wellTypedJson] at hw
  | vNaN => simp [wellTypedJson] at hw
  | vDate iso => simp [wellTypedJson] at hw
  | vNull =>
    rw [show render vNull = some ('n' :: 'u' :: 'l' :: 'l' :: []) from rfl] at hr
    cases hr
    exact ⟨'n', _, rfl, by decide, by decide, by decide⟩
  | vBool b =>
    cases b with
    | true =>
      rw [show render (vBool true) = some ('t' :: 'r' :: 'u' :: 'e' :: []) from rfl] at hr
      cases hr
      exact ⟨'t', _, rfl, by decide, by decide, by decide⟩
    | false =>
      rw [show render (vBool false) = some ('f' :: 'a' :: 'l' :: 's' :: 'e' :: []) from rfl] at hr
      cases hr
      exact ⟨'f', _, rfl, by decide, by decide, by decide⟩
  | vNum n =>
    rw [show render (vNum n) = some (intDigits n) from rfl] at hr
    cases hr
    obtain ⟨c0, cs', heq, hc0⟩ := intDigits_head n
    refine ⟨c0, cs', heq, ?_, ?_, ?_⟩ <;>
      (rcases hc0 with rfl | hd
       · decide
       · intro hcon; rw [hcon] at hd; exact absurd hd (by decide))
  | vStr s =>
    rw [show render (vStr s) = some (renderString s.data) from rfl] at hr
    cases hr
    exact ⟨'"', _, rfl, by decide, by decide, by decide⟩
  | vArr xs =>
    rw [show render (vArr xs) = some ('[' :: joinComma (itemPieces xs) ++ [']']) from
      rfl] at hr
    cases hr
    exact ⟨'[', _, rfl, by decide, by decide, by decide⟩
  | vObj fs =>
    rw [show render (vObj fs) = some (lbrace :: joinComma (memberPieces fs) ++ [rbrace])
      from rfl] at hr
    cases hr
    exact ⟨lbrace, _, rfl, by decide, by decide, by decide⟩

theorem lbrace_nonkey :
    lbrace ≠ 'n' ∧ lbrace ≠ 't' ∧ lbrace ≠ 'f' ∧ lbrace ≠ '"' ∧ lbrace ≠ '[' := by
  decide

/-- The parser re-reads everything the renderer emits: one induction on
the parser fuel, over values, array items and object members at once. -/
theorem parse_render (fuel : Nat) :
    (∀ v cs rest, wellTypedJson v = true → jsize v ≤ fuel → render v = some cs →
      numSep rest = true → parseV fuel (cs ++ rest) = some (v, rest)) ∧
    (∀ xs rest, xs ≠ [] → wellTypedJsonList xs = true → jsizeItems xs ≤ fuel →
      parseItems fuel (joinComma (itemPieces xs) ++ ']' :: rest) = some (xs, rest)) ∧
    (∀ fs rest, fs ≠ [] → wellTypedJsonMembers fs = true → jsizeMembers fs ≤ fuel →
      parseMembers fuel (joinComma (memberPieces fs) ++ rbrace :: rest) =
        some (fs, rest)) := by
  induction fuel with
  | zero =>
    refine ⟨?_, ?_, ?_⟩
    · intro v cs rest _ hs _ _
      have := jsize_pos v
      omega
    · intro xs rest hne _ hs
      cases xs with
      | nil => exact absurd rfl hne
      | cons x xs' =>
        rw [jsizeItems] at hs
        have := jsize_pos x
        omega
    · intro fs rest hne _ hs
      cases fs with
      | nil => exact absurd rfl hne
      | cons g fs' =>
        obtain ⟨k, v⟩ := g
        rw [jsizeMembers] at hs
        have := jsize_pos v
        omega
  | succ f ih =>
    obtain ⟨ihV, ihI, ihM⟩ := ih
    refine ⟨?_, ?_, ?_⟩
    · intro v cs rest hw hs hr hn
      cases v with
      | vUndefined => simp [wellTypedJson] at hw
      | vNaN => simp [wellTypedJson] at hw
      | vDate iso => simp [wellTypedJson] at hw
      | vNull =>
        rw [show render vNull = some ('n' :: 'u' :: 'l' :: 'l' :: []) from rfl] at hr
        cases hr
        rfl
      | vBool b =>
        cases b with
        | true =>
          rw [show render (vBool true) = some ('t' :: 'r' :: 'u' :: 'e' :: []) from
            rfl] at hr
          cases hr
          rfl
        | false =>
          rw [show render (vBool false) = some ('f' :: 'a' :: 'l' :: 's' :: 'e' :: [])
            from rfl] at hr
          cases hr
          rfl
      | vNum n =>
        rw [show render (vNum n) = some (intDigits n) from rfl] at hr
        cases hr
        obtain ⟨c0, cs', heq, hc0⟩ := intDigits_head n
        obtain ⟨k1, k2, k3, k4, k5, k6⟩ := nonNumHead_ne c0 hc0
        rw [heq, List.cons_append]
        conv_lhs => rw [parseV.eq_def]
        simp only [k1, k2, k3, k4, k5, k6, if_false, if_neg]
        rw [← List.cons_append, ← heq]
        exact parseNum_intDigits n rest hn
      | vStr s =>
        rw [show render (vStr s) = some (renderString s.data) from rfl] at hr
        cases hr
        rw [renderString]
        rw [show ('"' :: escBody s.data ++ ['"']) ++ rest =
          '"' :: (escBody s.data ++ '"' :: rest) from by simp]
        rw [show parseV (f + 1) ('"' :: (escBody s.data ++ '"' :: rest)) =
          (parseStrBody (escBody s.data ++ '"' :: rest)).map
            fun p => (vStr ⟨p.1⟩, p.2) from rfl]
        rw [parseStrBody_escBody]
        rfl
      | vArr xs =>
        rw [show render (vArr xs) = some ('[' :: joinComma (itemPieces xs) ++ [']'])
          from rfl] at hr
        cases hr
        cases xs with
        | nil =>
          rw [show ('[' :: joinComma (itemPieces ([] : List JSValue)) ++ [']']) ++ rest
            = '[' :: ']' :: rest from rfl]
          rfl
        | cons x xs' =>
          have hw2 : wellTypedJson x = true ∧ wellTypedJsonList xs' = true := by
            rw [show wellTypedJson (vArr (x :: xs')) = wellTypedJsonList (x :: xs')
              from rfl, show wellTypedJsonList (x :: xs') =
                (wellTypedJson x && wellTypedJsonList xs') from rfl] at hw
            exact And.intro (Bool.and_elim_left hw) (Bool.and_elim_right hw)
          obtain ⟨csx, hrx⟩ := render_isSome x hw2.1
          obtain ⟨c0, cs0, hcs, hne1, hne2, hne3⟩ := render_head x csx hw2.1 hrx
          have hip : itemPieces (x :: xs') = csx :: itemPieces xs' := by
            rw [show itemPieces (x :: xs') =
              (render x).getD ('n' :: 'u' :: 'l' :: 'l' :: []) :: itemPieces xs'
              from rfl, hrx]
            rfl
          have hj : ∃ t, joinComma (itemPieces (x :: xs')) = csx ++ t := by
            rw [hip]
            cases itemPieces xs' with
            | nil => exact ⟨[], by simp [joinComma]⟩
            | cons p ps => exact ⟨',' :: joinComma (p :: ps), rfl⟩
          obtain ⟨t, hjt⟩ := hj
          have hin : ('[' :: joinComma (itemPieces (x :: xs')) ++ [']']) ++ rest =
              '[' :: (joinComma (itemPieces (x :: xs')) ++ ']' :: rest) := by
            simp
          have hJ : joinComma (itemPieces (x :: xs')) ++ ']' :: rest =
              c0 :: (cs0 ++ (t ++ ']' :: rest)) := by
            rw [hjt, hcs]
            simp
          have hred : parseV (f + 1)
              ('[' :: (joinComma (itemPieces (x :: xs')) ++ ']' :: rest)) =
              (parseItems f (joinComma (itemPieces (x :: xs')) ++ ']' :: rest)).map
                fun p => (vArr p.1, p.2) := by
            rw [hJ]
            conv_lhs => rw [parseV.eq_def]
            simp [hne1]
          have hsz : jsizeItems (x :: xs') ≤ f := by
            rw [show jsize (vArr (x :: xs')) = 1 + jsizeItems (x :: xs') from rfl] at hs
            omega
          rw [hin, hred, ihI (x :: xs') rest (by simp)
            (by rw [show wellTypedJsonList (x :: xs') =
              (wellTypedJson x && wellTypedJsonList xs') from rfl]
                simp [hw2.1, hw2.2]) hsz]
          rfl
      | vObj fs =>
        rw [show render (vObj fs) = some (lbrace :: joinComma (memberPieces fs) ++
          [rbrace]) from rfl] at hr
        cases hr
        cases fs with
        | nil =>
          rw [show (lbrace :: joinComma (memberPieces
            ([] : List (String × JSValue))) ++ [rbrace]) ++ rest =
            lbrace :: rbrace :: rest from rfl]
          conv_lhs => rw [parseV.eq_def]
          obtain ⟨l1, l2, l3, l4, l5⟩ := lbrace_nonkey
          simp [l1, l2, l3, l4, l5]
        | cons g fs' =>
          obtain ⟨k, v⟩ := g
          have hw2 : wellTypedJson v = true ∧ wellTypedJsonMembers fs' = true := by
            rw [show wellTypedJson (vObj ((k, v) :: fs')) =
              wellTypedJsonMembers ((k, v) :: fs') from rfl,
              show wellTypedJsonMembers ((k, v) :: fs') =
                (wellTypedJson v && wellTypedJsonMembers fs') from rfl] at hw
            exact And.intro (Bool.and_elim_left hw) (Bool.and_elim_right hw)
          obtain ⟨csv, hrv⟩ := render_isSome v hw2.1
          have hmp : memberPieces ((k, v) :: fs') =
              (renderString k.data ++ ':' :: csv) :: memberPieces fs' := by
            rw [show memberPieces ((k, v) :: fs') =
              (match render v with
               | none => memberPieces fs'
               | some t => (renderString k.data ++ ':' :: t) :: memberPieces fs')
              from rfl, hrv]
          have hj : ∃ t, joinComma (memberPieces ((k, v) :: fs')) =
              (renderString k.data ++ ':' :: csv) ++ t := by
            rw [hmp]
            cases memberPieces fs' with
            | nil => exact ⟨[], by simp [joinComma]⟩
            | cons p ps => exact ⟨',' :: joinComma (p :: ps), rfl⟩
          obtain ⟨t, hjt⟩ := hj
          have hin : (lbrace :: joinComma (memberPieces ((k, v) :: fs')) ++ [rbrace])
              ++ rest =
              lbrace :: (joinComma (memberPieces ((k, v) :: fs')) ++ rbrace :: rest)
              := by
            simp
          have hJ : joinComma (memberPieces ((k, v) :: fs')) ++ rbrace :: rest =
              '"' :: ((escBody k.data ++ ['"'] ++ ':' :: csv) ++ (t ++ rbrace :: rest))
              := by
            rw [hjt, renderString]
            simp
          have hred : parseV (f + 1)
              (lbrace :: (joinComma (memberPieces ((k, v) :: fs')) ++ rbrace :: rest))
              = (parseMembers f
                  (joinComma (memberPieces ((k, v) :: fs')) ++ rbrace :: rest)).map
                fun p => (vObj p.1, p.2) := by
            rw [hJ]
            conv_lhs => rw [parseV.eq_def]
            obtain ⟨l1, l2, l3, l4, l5⟩ := lbrace_nonkey
            simp [l1, l2, l3, l4, l5, show ('"' : Char) ≠ rbrace from by decide]
          have hsz : jsizeMembers ((k, v) :: fs') ≤ f := by
            rw [show jsize (vObj ((k, v) :: fs')) = 1 + jsizeMembers ((k, v) :: fs')
              from rfl] at hs
            omega
          rw [hin, hred, ihM ((k, v) :: fs') rest (by simp)
            (by rw [show wellTypedJsonMembers ((k, v) :: fs') =
              (wellTypedJson v && wellTypedJsonMembers fs') from rfl]
                simp [hw2.1, hw2.2]) hsz]
          rfl
    · intro xs rest hne hw hs
      cases xs with
      | nil => exact absurd rfl hne
      | cons x xs' =>
        have hw2 : wellTypedJson x = true ∧ wellTypedJsonList xs' = true := by
          rw [show wellTypedJsonList (x :: xs') =
            (wellTypedJson x && wellTypedJsonList xs') from rfl] at hw
          exact And.intro (Bool.and_elim_left hw) (Bool.and_elim_right hw)
        obtain ⟨csx, hrx⟩ := render_isSome x hw2.1
        have hip : itemPieces (x :: xs') = csx :: itemPieces xs' := by
          rw [show itemPieces (x :: xs') =
            (render x).getD ('n' :: 'u' :: 'l' :: 'l' :: []) :: itemPieces xs'
            from rfl, hrx]
          rfl
        have hszx : jsize x ≤ f := by
          rw [jsizeItems] at hs
          omega
        cases hxs : xs' with
        | nil =>
          subst hxs
          have hone : joinComma (itemPieces [x]) ++ ']' :: rest = csx ++ ']' :: rest
              := by
            rw [hip]
            rfl
          rw [hone]
          have hpv := ihV x csx (']' :: rest) hw2.1 hszx hrx rfl
          conv_lhs => rw [parseItems.eq_def]
          simp [hpv]
        | cons y ys =>
          subst hxs
          have hip2 : ∃ p ps, itemPieces (y :: ys) = p :: ps := ⟨_, _, rfl⟩
          obtain ⟨p, ps, hpps⟩ := hip2
          have htwo : joinComma (itemPieces (x :: y :: ys)) ++ ']' :: rest =
              csx ++ ',' :: (joinComma (itemPieces (y :: ys)) ++ ']' :: rest) := by
            rw [hip, hpps]
            rw [show joinComma (csx :: p :: ps) = csx ++ ',' :: joinComma (p :: ps)
              from rfl]
            simp
          rw [htwo]
          have hpv := ihV x csx (',' :: (joinComma (itemPieces (y :: ys)) ++
            ']' :: rest)) hw2.1 hszx hrx rfl
          have hrec := ihI (y :: ys) rest (by simp) hw2.2
            (by rw [jsizeItems] at hs; have := jsize_pos x; omega)
          conv_lhs => rw [parseItems.eq_def]
          simp [hpv, hrec]
    · intro fs rest hne hw hs
      cases fs with
      | nil => exact absurd rfl hne
      | cons g fs' =>
        obtain ⟨k, v⟩ := g
        have hw2 : wellTypedJson v = true ∧ wellTypedJsonMembers fs' = true := by
          rw [show wellTypedJsonMembers ((k, v) :: fs') =
            (wellTypedJson v && wellTypedJsonMembers fs') from rfl] at hw
          exact And.intro (Bool.and_elim_left hw) (Bool.and_elim_right hw)
        obtain ⟨csv, hrv⟩ := render_isSome v hw2.1
        have hmp : memberPieces ((k, v) :: fs') =
            (renderString k.data ++ ':' :: csv) :: memberPieces fs' := by
          rw [show memberPieces ((k, v) :: fs') =
            (match render v with
             | none => memberPieces fs'
             | some t => (renderString k.data ++ ':' :: t) :: memberPieces fs')
            from rfl, hrv]
        have hszv : jsize v ≤ f := by
          rw [jsizeMembers] at hs
          omega
        cases hfs : fs' with
        | nil =>
          subst hfs
          have hone : joinComma (memberPieces [(k, v)]) ++ rbrace :: rest =
              '"' :: (escBody k.data ++ '"' :: (':' :: (csv ++ rbrace :: rest))) := by
            rw [hmp, show memberPieces ([] : List (String × JSValue)) = [] from rfl,
              show joinComma [renderString k.data ++ ':' :: csv] =
                renderString k.data ++ ':' :: csv from rfl, renderString]
            simp
          rw [hone]
          have hsb := parseStrBody_escBody k.data (':' :: (csv ++ rbrace :: rest))
          have hpv := ihV v csv (rbrace :: rest) hw2.1 hszv hrv rfl
          conv_lhs => rw [parseMembers.eq_def]
          simp [hsb, hpv]
        | cons g2 gs =>
          subst hfs
          obtain ⟨k2, v2⟩ := g2
          have hw3 : wellTypedJson v2 = true ∧ wellTypedJsonMembers gs = true := by
            have h := hw2.2
            rw [show wellTypedJsonMembers ((k2, v2) :: gs) =
              (wellTypedJson v2 && wellTypedJsonMembers gs) from rfl] at h
            exact And.intro (Bool.and_elim_left h) (Bool.and_elim_right h)
          obtain ⟨csv2, hrv2⟩ := render_isSome v2 hw3.1
          have hmp2 : memberPieces ((k2, v2) :: gs) =
              (renderString k2.data ++ ':' :: csv2) :: memberPieces gs := by
            rw [show memberPieces ((k2, v2) :: gs) =
              (match render v2 with
               | none => memberPieces gs
               | some t => (renderString k2.data ++ ':' :: t) :: memberPieces gs)
              from rfl, hrv2]
          have htwo : joinComma (memberPieces ((k, v) :: (k2, v2) :: gs)) ++
              rbrace :: rest =
              '"' :: (escBody k.data ++ '"' :: (':' :: (csv ++ ',' ::
                (joinComma (memberPieces ((k2, v2) :: gs)) ++ rbrace :: rest)))) := by
            rw [hmp, hmp2,
              show joinComma ((renderString k.data ++ ':' :: csv) ::
                (renderString k2.data ++ ':' :: csv2) :: memberPieces gs) =
                (renderString k.data ++ ':' :: csv) ++ ',' ::
                  joinComma ((renderString k2.data ++ ':' :: csv2) ::
                    memberPieces gs) from rfl,
              renderString, ← hmp2]
            simp
          rw [htwo]
          have hsb := parseStrBody_escBody k.data (':' :: (csv ++ ',' ::
            (joinComma (memberPieces ((k2, v2) :: gs)) ++ rbrace :: rest)))
          have hpv := ihV v csv (',' ::
            (joinComma (memberPieces ((k2, v2) :: gs)) ++ rbrace :: rest))
            hw2.1 hszv hrv rfl
          have hrec := ihM ((k2, v2) :: gs) rest (by simp) hw2.2
            (by rw [jsizeMembers] at hs; have := jsize_pos v; omega)
          conv_lhs => rw [parseMembers.eq_def]
          simp [hsb, hpv, hrec, show (',' : Char) ≠ rbrace from by decide]

/-- A non-empty item list has a non-empty piece list. -/
theorem itemPieces_eq_nil (xs : List JSValue) (h : itemPieces xs = []) : xs = [] := by
  cases xs with
  | nil => rfl
  | cons y ys =>
    rw [show itemPieces (y :: ys) =
      (render y).getD ('n' :: 'u' :: 'l' :: 'l' :: []) :: itemPieces ys from rfl] at h
    cases h

/-- A non-empty well-typed member list has a non-empty piece list. -/
theorem memberPieces_eq_nil (fs : List (String × JSValue))
    (hw : wellTypedJsonMembers fs = true) (h : memberPieces fs = []) : fs = [] := by
  cases fs with
  | nil => rfl
  | cons g gs =>
    obtain ⟨k, v⟩ := g
    have hw2 : wellTypedJson v = true := by
      rw [show wellTypedJsonMembers ((k, v) :: gs) =
        (wellTypedJson v && wellTypedJsonMembers gs) from rfl] at hw
      exact Bool.and_elim_left hw
    obtain ⟨csv, hrv⟩ := render_isSome v hw2
    rw [show memberPieces ((k, v) :: gs) =
      (match render v with
       | none => memberPieces gs
       | some t => (renderString k.data ++ ':' :: t) :: memberPieces gs)
      from rfl, hrv] at h
    cases h

mutual
/-- The fuel measure of a well-typed value is bounded by its rendered
length (so `jsonParse`'s fuel, the input length plus one, is enough). -/
theorem jsize_le_render : ∀ (v : JSValue) (cs : List Char),
    wellTypedJson v = true → render v = some cs → jsize v ≤ cs.length
  | vUndefined, _, hw, _ => by simp [wellTypedJson] at hw
  | vNaN, _, hw, _ => by simp [wellTypedJson] at hw
  | vDate _, _, hw, _ => by simp [wellTypedJson] at hw
  | vNull, cs, _, hr => by
    rw [show render vNull = some ('n' :: 'u' :: 'l' :: 'l' :: []) from rfl] at hr
    cases hr
    simp [jsize]
  | vBool b, cs, _, hr => by
    cases b with
    | true =>
      rw [show render (vBool true) = some ('t' :: 'r' :: 'u' :: 'e' :: [])
        from rfl] at hr
      cases hr
      simp [jsize]
    | false =>
      rw [show render (vBool false) = some ('f' :: 'a' :: 'l' :: 's' :: 'e' :: [])
        from rfl] at hr
      cases hr
      simp [jsize]
  | vNum n, cs, _, hr => by
    rw [show render (vNum n) = some (intDigits n) from rfl] at hr
    cases hr
    obtain ⟨c0, cs', heq, _⟩ := intDigits_head n
    rw [heq]
    simp [jsize]
  | vStr s, cs, _, hr => by
    rw [show render (vStr s) = some (renderString s.data) from rfl] at hr
    cases hr
    rw [renderString]
    simp [jsize]
  | vArr xs, cs, hw, hr => by
    rw [show render (vArr xs) = some ('[' :: joinComma (itemPieces xs) ++ [']'])
      from rfl] at hr
    cases hr
    have hxs : wellTypedJsonList xs = true := by
      rwa [show wellTypedJson (vArr xs) = wellTypedJsonList xs from rfl] at hw
    have := jsizeItems_le_pieces xs hxs
    rw [show jsize (vArr xs) = 1 + jsizeItems xs from rfl]
    simp only [List.length_cons, List.length_append, List.length_singleton]
    omega
  | vObj fs, cs, hw, hr => by
    rw [show render (vObj fs) = some (lbrace :: joinComma (memberPieces fs) ++
      [rbrace]) from rfl] at hr
    cases hr
    have hfs : wellTypedJsonMembers fs = true := by
      rwa [show wellTypedJson (vObj fs) = wellTypedJsonMembers fs from rfl] at hw
    have := jsizeMembers_le_pieces fs hfs
    rw [show jsize (vObj fs) = 1 + jsizeMembers fs from rfl]
    simp only [List.length_cons, List.length_append, List.length_singleton]
    omega

/-- Companion bound for array items. -/
theorem jsizeItems_le_pieces : ∀ (xs : List JSValue),
    wellTypedJsonList xs = true →
    jsizeItems xs ≤ (joinComma (itemPieces xs)).length + 1
  | [], _ => by simp [jsizeItems]
  | x :: xs, hw => by
    have hw2 : wellTypedJson x = true ∧ wellTypedJsonList xs = true := by
      rw [show wellTypedJsonList (x :: xs) =
        (wellTypedJson x && wellTypedJsonList xs) from rfl] at hw
      exact And.intro (Bool.and_elim_left hw) (Bool.and_elim_right hw)
    obtain ⟨csx, hrx⟩ := render_isSome x hw2.1
    have hvx := jsize_le_render x csx hw2.1 hrx
    have hip : itemPieces (x :: xs) = csx :: itemPieces xs := by
      rw [show itemPieces (x :: xs) =
        (render x).getD ('n' :: 'u' :: 'l' :: 'l' :: []) :: itemPieces xs
        from rfl, hrx]
      rfl
    have hxs := jsizeItems_le_pieces xs hw2.2
    rw [show jsizeItems (x :: xs) = 1 + jsize x + jsizeItems xs from rfl, hip]
    cases hps : itemPieces xs with
    | nil =>
      have h0 : xs = [] := itemPieces_eq_nil xs hps
      subst h0
      rw [show joinComma [csx] = csx from rfl,
        show jsizeItems ([] : List JSValue) = 0 from rfl]
      omega
    | cons p ps =>
      rw [hps] at hxs
      rw [show joinComma (csx :: p :: ps) = csx ++ ',' :: joinComma (p :: ps)
        from rfl]
      simp only [List.length_append, List.length_cons]
      omega

/-- Companion bound for object members. -/
theorem jsizeMembers_le_pieces : ∀ (fs : List (String × JSValue)),
    wellTypedJsonMembers fs = true →
    jsizeMembers fs ≤ (joinComma (memberPieces fs)).length + 1
  | [], _ => by simp [jsizeMembers]
  | (k, v) :: fs, hw => by
    have hw2 : wellTypedJson v = true ∧ wellTypedJsonMembers fs = true := by
      rw [show wellTypedJsonMembers ((k, v) :: fs) =
        (wellTypedJson v && wellTypedJsonMembers fs) from rfl] at hw
      exact And.intro (Bool.and_elim_left hw) (Bool.and_elim_right hw)
    obtain ⟨csv, hrv⟩ := render_isSome v hw2.1
    have hvv := jsize_le_render v csv hw2.1 hrv
    have hmp : memberPieces ((k, v) :: fs) =
        (renderString k.data ++ ':' :: csv) :: memberPieces fs := by
      rw [show memberPieces ((k, v) :: fs) =
        (match render v with
         | none => memberPieces fs
         | some t => (renderString k.data ++ ':' :: t) :: memberPieces fs)
        from rfl, hrv]
    have hfs := jsizeMembers_le_pieces fs hw2.2
    rw [show jsizeMembers ((k, v) :: fs) = 1 + jsize v + jsizeMembers fs from rfl,
      hmp]
    cases hps : memberPieces fs with
    | nil =>
      have h0 : fs = [] := memberPieces_eq_nil fs hw2.2 hps
      subst h0
      rw [show joinComma [renderString k.data ++ ':' :: csv] =
        renderString k.data ++ ':' :: csv from rfl,
        show jsizeMembers ([] : List (String × JSValue)) = 0 from rfl]
      simp only [List.length_append, List.length_cons]
      omega
    | cons p ps =>
      rw [hps] at hfs
      rw [show joinComma ((renderString k.data ++ ':' :: csv) :: p :: ps) =
        (renderString k.data ++ ':' :: csv) ++ ',' :: joinComma (p :: ps) from rfl]
      simp only [List.length_append, List.length_cons]
      omega
end

/-- The modelled `JSON.parse` inverts the modelled `JSON.stringify` on
well-typed JSON values. -/
theorem jsonParse_jsonStringify (v : JSValue) (hw : wellTypedJson v = true)
    (s : String) (hjs : jsonStringify v = some s) : jsonParse s = some v := by
  rw [jsonStringify] at hjs
  cases hrv : render v with
  | none => rw [hrv] at hjs; cases hjs
  | some cs =>
    rw [hrv] at hjs
    rw [show Option.map (fun cs => (⟨cs⟩ : String)) (some cs) = some ⟨cs⟩ from
      rfl] at hjs
    cases hjs
    have hlen : jsize v ≤ cs.length + 1 :=
      Nat.le_succ_of_le (jsize_le_render v cs hw hrv)
    have hp := (parse_render (cs.length + 1)).1 v cs [] hw hlen hrv rfl
    rw [List.append_nil] at hp
    rw [jsonParse]
    rw [show (⟨cs⟩ : String).data = cs from rfl, hp]

/-- A rendered well-typed non-null value is neither the empty string nor
the text `null`. -/
theorem render_ne_empty_null (v : JSValue) (cs : List Char)
    (hw : wellTypedJson v = true) (hnn : v ≠ vNull) (hr : render v = some cs) :
    (⟨cs⟩ : String) ≠ "" ∧ (⟨cs⟩ : String) ≠ "null" := by
  cases v with
  | vUndefined => simp [wellTypedJson] at hw
  | vNaN => simp [wellTypedJson] at hw
  | vDate iso => simp [wellTypedJson] at hw
  | vNull => exact absurd rfl hnn
  | vBool b =>
    cases b with
    | true =>
      rw [show render (vBool true) = some ('t' :: 'r' :: 'u' :: 'e' :: [])
        from rfl] at hr
      cases hr
      exact ⟨by decide, by decide⟩
    | false =>
      rw [show render (vBool false) = some ('f' :: 'a' :: 'l' :: 's' :: 'e' :: [])
        from rfl] at hr
      cases hr
      exact ⟨by decide, by decide⟩
  | vNum n =>
    rw [show render (vNum n) = some (intDigits n) from rfl] at hr
    cases hr
    obtain ⟨c0, cs', heq, hc0⟩ := intDigits_head n
    rw [heq]
    constructor
    · intro h
      have hd := congrArg String.data h
      simp at hd
    · intro h
      have hd := congrArg String.data h
      rw [show (⟨c0 :: cs'⟩ : String).data = c0 :: cs' from rfl,
        show ("null" : String).data = 'n' :: 'u' :: 'l' :: 'l' :: [] from rfl] at hd
      have hn : c0 = 'n' := (List.cons.injEq _ _ _ _ ▸ hd).1
      rcases hc0 with rfl | hdg
      · cases hn
      · rw [hn] at hdg
        exact absurd hdg (by decide)
  | vStr s =>
    rw [show render (vStr s) = some (renderString s.data) from rfl] at hr
    cases hr
    rw [renderString]
    constructor
    · intro h
      have hd := congrArg String.data h
      simp at hd
    · intro h
      have hd := congrArg String.data h
      rw [show (⟨'"' :: escBody s.data ++ ['"']⟩ : String).data =
        '"' :: escBody s.data ++ ['"'] from rfl,
        show ("null" : String).data = 'n' :: 'u' :: 'l' :: 'l' :: [] from rfl] at hd
      have hn : '"' = 'n' := (List.cons.injEq _ _ _ _ ▸ hd).1
      cases hn
  | vArr xs =>
    rw [show render (vArr xs) = some ('[' :: joinComma (itemPieces xs) ++ [']'])
      from rfl] at hr
    cases hr
    constructor
    · intro h
      have hd := congrArg String.data h
      simp at hd
    · intro h
      have hd := congrArg String.data h
      rw [show (⟨'[' :: joinComma (itemPieces xs) ++ [']']⟩ : String).data =
        '[' :: joinComma (itemPieces xs) ++ [']'] from rfl,
        show ("null" : String).data = 'n' :: 'u' :: 'l' :: 'l' :: [] from rfl] at hd
      have hn : '[' = 'n' := (List.cons.injEq _ _ _ _ ▸ hd).1
      cases hn
  | vObj fs =>
    rw [show render (vObj fs) = some (lbrace :: joinComma (memberPieces fs) ++
      [rbrace]) from rfl] at hr
    cases hr
    constructor
    · intro h
      have hd := congrArg String.data h
      simp at hd
    · intro h
      have hd := congrArg String.data h
      rw [show (⟨lbrace :: joinComma (memberPieces fs) ++ [rbrace]⟩ : String).data =
        lbrace :: joinComma (memberPieces fs) ++ [rbrace] from rfl,
        show ("null" : String).data = 'n' :: 'u' :: 'l' :: 'l' :: [] from rfl] at hd
      have hn : lbrace = 'n' := (List.cons.injEq _ _ _ _ ▸ hd).1
      exact absurd hn (by decide)

/-- The `jsonb` codec round trip on well-typed JSON values. -/
theorem jsonb_round_trip (v : JSValue) (hw : wellTypedJson v = true) :
    processValueFromStorage (processValueForStorage v ColumnType.jsonb)
      ColumnType.jsonb = Except.ok v := by
  by_cases hnull : v = vNull
  · subst hnull
    rfl
  · have hnu : isNullish v = false := by
      cases v with
      | vUndefined => simp [wellTypedJson] at hw
      | vNull => exact absurd rfl hnull
      | _ => rfl
    obtain ⟨cs, hrv⟩ := render_isSome v hw
    obtain ⟨hne1, hne2⟩ := render_ne_empty_null v cs hw hnull hrv
    have hjs : jsonStringify v = some ⟨cs⟩ := by
      rw [jsonStringify, hrv]
      rfl
    have henc : processValueForStorage v ColumnType.jsonb = vStr ⟨cs⟩ := by
      rw [processValueForStorage, hnu]
      rw [show storageCoerce v ColumnType.jsonb =
        (match jsonStringify v with
         | some s => vStr s
         | none => vUndefined) from rfl, hjs]
      rfl
    rw [henc]
    rw [show processValueFromStorage (vStr ⟨cs⟩) ColumnType.jsonb =
      (if (⟨cs⟩ : String) = "" ∨ (⟨cs⟩ : String) = "null" then Except.ok vNull
       else
         match jsonParse ⟨cs⟩ with
         | some v => Except.ok v
         | none => Except.error Thrown.jsonSyntaxErr) from rfl]
    rw [if_neg (fun h => h.elim hne1 hne2)]
    rw [jsonParse_jsonStringify v hw ⟨cs⟩ hjs]

/-- C1: for the four lossless logical types the codec round-trips every
well-typed logical value; the `date` type is asymmetric by design — the
round trip of a `Date` yields its ISO string. -/
theorem codec_round_trip (v : JSValue) (t : ColumnType)
    (hv : wellTypedFor v t = true) :
    (t ≠ ColumnType.date →
      processValueFromStorage (processValueForStorage v t) t = Except.ok v) ∧
    (∀ iso, processValueFromStorage
      (processValueForStorage (vDate iso) ColumnType.date) ColumnType.date =
      Except.ok (vStr iso)) := by
  constructor
  · intro ht
    cases t with
    | date => exact absurd rfl ht
    | boolean =>
      cases v with
      | vNull => rfl
      | vBool b => cases b <;> rfl
      | _ => simp [wellTypedFor] at hv
    | number =>
      cases v with
      | vNull => rfl
      | vNum n => rfl
      | _ => simp [wellTypedFor] at hv
    | string =>
      cases v with
      | vNull => rfl
      | vStr s => rfl
      | _ => simp [wellTypedFor] at hv
    | jsonb =>
      exact jsonb_round_trip v
        (by rwa [show wellTypedFor v ColumnType.jsonb = wellTypedJson v from rfl]
          at hv)
  · intro iso
    rfl

/-- C1 witness: the round trip at a nested JSON value and at a date. -/
theorem codec_round_trip_witness :
    processValueFromStorage (processValueForStorage wJson ColumnType.jsonb)
      ColumnType.jsonb = Except.ok wJson ∧
    processValueFromStorage
      (processValueForStorage (vDate "2024-01-01T00:00:00.000Z") ColumnType.date)
      ColumnType.date = Except.ok (vStr "2024-01-01T00:00:00.000Z") :=
  ⟨(codec_round_trip wJson ColumnType.jsonb rfl).1 (by decide),
   (codec_round_trip (vDate "x") ColumnType.date rfl).2 "2024-01-01T00:00:00.000Z"⟩

end ModelOne
